import Mathlib

/-!
Verification development for the crawl engine of the `nepremicnine-discord-bot`
repository.  The Python modules `database/database_manager.py`,
`spider/spider.py`, `services/link_extractor.py`, `services/page_extractor.py`
and `util/util.py` are shallowly embedded as pure Lean functions over an
explicit database state.  The SQLAlchemy models for the crawler tables
(`Page`, `Site`, `Link`) are not part of the checked-in sources; their unique
constraints are modelled from the specification where noted.
-/

namespace Crawler

/-- Page lifecycle states, as seeded by `migrate.py` (`PageType` rows) and used
throughout `database_manager.py` and `spider.py`. -/
inductive PageState where
  | FRONTIER
  | CRAWLING
  | HTML
  | BINARY
  | DUPLICATE
  | REDIRECT
  | FAILED
deriving DecidableEq, Repr

/-- Modelled from the spec: one row of the `Page` table ("one URL under crawl
management": identity, canonical URL (unique), lifecycle state, HTTP status,
content hash (nullable), owning site reference (nullable), raw content
(nullable)).  The ORM model module for the crawler is not among the sources;
the columns are those read and written by `database_manager.py`. -/
structure PageRow where
  id : Nat
  url : String
  page_type_code : PageState
  site_id : Option Nat
  html_content : Option String
  html_content_hash : Option String
  http_status_code : Option Nat
deriving DecidableEq, Repr

/-- Modelled from the spec: one row of the `Site` table ("domain (normalized,
`www.` stripped, unique), robots policy text, sitemap listing text,
identity"). -/
structure SiteRow where
  id : Nat
  domain : String
  robots_content : Option String
  sitemap_content : Option String
deriving DecidableEq, Repr

/-- Modelled from the spec: one row of the `Link` table, a directed edge
`from_page -> to_page`. -/
structure LinkRow where
  from_page : Nat
  to_page : Nat
deriving DecidableEq, Repr

/-- The database state seen by `DatabaseManager`.  Fresh primary keys are
modelled by the `next`-counters. -/
structure DB where
  pages : List PageRow
  sites : List SiteRow
  links : List LinkRow
  nextPageId : Nat
  nextSiteId : Nat
deriving DecidableEq, Repr

/-- Look a page up by its id. -/
def DB.getPage (db : DB) (i : Nat) : Option PageRow :=
  db.pages.find? (fun p => p.id == i)

/-- The lifecycle state of the page with id `i`, when it exists. -/
def DB.stateOf (db : DB) (i : Nat) : Option PageState :=
  (db.getPage i).map (fun p => p.page_type_code)

/-- Well-formedness of a database state: primary keys are below the
`next`-counters and page ids are pairwise distinct. -/
def DB.WF (db : DB) : Prop :=
  (∀ p ∈ db.pages, p.id < db.nextPageId) ∧
  (db.pages.map (fun p => p.id)).Nodup ∧
  (∀ s ∈ db.sites, s.id < db.nextSiteId)

/-- `DatabaseManager.pop_frontier`: select the first page in state `FRONTIER`,
transition it to `CRAWLING` and return its id and url; return `none` when the
frontier is empty.  The `SELECT ... FOR UPDATE` / `UPDATE` / `COMMIT`
transaction of the source is modelled as one atomic step here; the
lock-granular interleaving model appears further below. -/
def pop_frontier (db : DB) : Option (Nat × String) × DB :=
  match db.pages.find? (fun p => p.page_type_code == PageState.FRONTIER) with
  | some p =>
      (some (p.id, p.url),
        { db with pages := db.pages.map (fun q =>
            if q.id == p.id then { q with page_type_code := PageState.CRAWLING } else q) })
  | none => (none, db)

/-- `DatabaseManager.add_to_frontier`: insert a new `FRONTIER` page for `link`
and return its id; on a URL-uniqueness violation (`IntegrityError`) roll back
and return `none`.  The unique constraint on `Page.url` is modelled from the
spec ("canonical URL (unique)"). -/
def add_to_frontier (db : DB) (link : String) : Option Nat × DB :=
  if db.pages.any (fun p => p.url == link) then
    (none, db)
  else
    (some db.nextPageId,
      { db with
          pages := db.pages ++
            [⟨db.nextPageId, link, PageState.FRONTIER, none, none, none, none⟩],
          nextPageId := db.nextPageId + 1 })

/-- `DatabaseManager.update_page`: overwrite state, content, status, site,
hash of the page with id `page_id`.  The site reference is optional because
the duplicate branch of `crawl_url` forwards the original page's possibly
absent site id. -/
def update_page (db : DB) (page_id : Nat) (status : Nat) (site_id : Option Nat)
    (html : Option String) (html_hash : Option String) (ptc : PageState) : DB :=
  { db with pages := db.pages.map (fun q =>
      if q.id == page_id then
        { q with
            page_type_code := ptc,
            html_content := html,
            http_status_code := some status,
            site_id := site_id,
            html_content_hash := html_hash }
      else q) }

/-- `DatabaseManager.update_page_redirect`: make the page with id `page_id` a
`REDIRECT` page with HTTP status 301 (content columns untouched). -/
def update_page_redirect (db : DB) (page_id : Nat) (site_id : Nat) : DB :=
  { db with pages := db.pages.map (fun q =>
      if q.id == page_id then
        { q with
            page_type_code := PageState.REDIRECT,
            http_status_code := some 301,
            site_id := some site_id }
      else q) }

/-- `DatabaseManager.create_new_page`: insert a page for `url`; on a
URL-uniqueness violation roll back and return the id of the first existing
page with that url.  The unique constraint on `Page.url` is modelled from the
spec. -/
def create_new_page (db : DB) (url : String) (site_id : Nat) (ptc : PageState) :
    Nat × DB :=
  match db.pages.find? (fun p => p.url == url) with
  | some p => (p.id, db)
  | none =>
      (db.nextPageId,
        { db with
            pages := db.pages ++
              [⟨db.nextPageId, url, ptc, some site_id, none, none, none⟩],
            nextPageId := db.nextPageId + 1 })

/-- Python `str.replace "www." ""` on a character list: scan left to right,
delete each non-overlapping occurrence of `www.`, continue after the deleted
occurrence. -/
def stripWWW : List Char → List Char
  | 'w' :: 'w' :: 'w' :: '.' :: rest => stripWWW rest
  | c :: rest => c :: stripWWW rest
  | [] => []

/-- `domain.replace("www.", "")` as performed by both `save_site` and
`get_site`: every occurrence of the substring `www.` is deleted, not only a
leading one. -/
def removeWWW (s : String) : String :=
  ⟨stripWWW s.data⟩

/-- `DatabaseManager.save_site`: normalize the domain, insert a site row; on a
domain-uniqueness violation roll back and return the id of the first existing
site with that domain.  The unique constraint on `Site.domain` is modelled
from the spec ("created at most once per normalized domain"). -/
def save_site (db : DB) (domain : String) (robots : Option String)
    (sitemap : Option String) : Nat × DB :=
  match db.sites.find? (fun s => s.domain == removeWWW domain) with
  | some s => (s.id, db)
  | none =>
      (db.nextSiteId,
        { db with
            sites := db.sites ++ [⟨db.nextSiteId, removeWWW domain, robots, sitemap⟩],
            nextSiteId := db.nextSiteId + 1 })

/-- `DatabaseManager.get_site`: normalize the domain and return the first site
row with that domain, as an (id, domain, robots, sitemap) tuple. -/
def get_site (db : DB) (domain : String) :
    Option (Nat × String × Option String × Option String) :=
  (db.sites.find? (fun s => s.domain == removeWWW domain)).map
    (fun s => (s.id, s.domain, s.robots_content, s.sitemap_content))

/-- `DatabaseManager.check_pages_hash_collision`: return id and site of the
first page whose stored content hash equals `h`. -/
def check_pages_hash_collision (db : DB) (h : String) : Option (Nat × Option Nat) :=
  (db.pages.find? (fun p => p.html_content_hash == some h)).map
    (fun p => (p.id, p.site_id))

/-- `DatabaseManager.add_page_link`: insert the edge `from_page -> to_page`;
a duplicate edge raises `IntegrityError` and is a no-op.  The uniqueness of a
`Link` edge is modelled from the spec ("idempotent - attempting to insert a
duplicate edge is a no-op"). -/
def add_page_link (db : DB) (to_page : Nat) (from_page : Nat) : DB :=
  if db.links.any (fun l => l.from_page == from_page && l.to_page == to_page) then db
  else { db with links := db.links ++ [⟨from_page, to_page⟩] }

/-- `DatabaseManager.mark_page_as_failed`: set the page's state to `FAILED`,
also recording the site id when one is supplied. -/
def mark_page_as_failed (db : DB) (page_id : Nat) (site_id : Option Nat) : DB :=
  { db with pages := db.pages.map (fun q =>
      if q.id == page_id then
        match site_id with
        | some sid => { q with page_type_code := PageState.FAILED, site_id := some sid }
        | none => { q with page_type_code := PageState.FAILED }
      else q) }

example :
    removeWWW "www.gov.si" = "gov.si" := by decide

example :
    removeWWW "sub.www.example.com" = "sub.example.com" := by decide

example :
    removeWWW "wwwww.x" = "wwx" := by decide

/-! ## URL model and `util.canonicalize` -/

/-- A parsed URL, the shape produced by the library URL parser: scheme, network
location, path, optional query and optional fragment.  Ports and
percent-encodings are outside the model. -/
structure Url where
  scheme : String
  host : String
  path : String
  query : Option String
  fragment : Option String
deriving DecidableEq, Repr

/-- ASCII lower-casing of one character, as applied by URL normalization to
scheme and host. -/
def lowerChar (c : Char) : Char :=
  if 65 ≤ c.toNat ∧ c.toNat ≤ 90 then Char.ofNat (c.toNat + 32) else c

/-- ASCII lower-casing of a string. -/
def lowerStr (s : String) : String :=
  ⟨s.data.map lowerChar⟩

/-- Model of the `url_normalize` library call used by `canonicalize`: case-fold
scheme and host and default an empty path to `/` ("general form fixes"). -/
def url_normalize (u : Url) : Url :=
  { scheme := lowerStr u.scheme,
    host := lowerStr u.host,
    path := if u.path = "" then "/" else u.path,
    query := u.query,
    fragment := u.fragment }

/-- Model of the `w3lib.url.url_query_cleaner` call used by `canonicalize`:
remove the query parameters. -/
def url_query_cleaner (u : Url) : Url :=
  { u with query := none }

/-- The fragment-removing substitution performed by `canonicalize`. -/
def remove_fragment (u : Url) : Url :=
  { u with fragment := none }

/-- Render a parsed URL back to its string form. -/
def serialize (u : Url) : String :=
  u.scheme ++ "://" ++ u.host ++ u.path ++
    (match u.query with
     | some q => "?" ++ q
     | none => "") ++
    (match u.fragment with
     | some f => "#" ++ f
     | none => "")

/-- The last path-like segment of a string: the characters after the last
slash. -/
def lastSeg (l : List Char) : List Char :=
  (l.reverse.takeWhile (fun c => c ≠ '/')).reverse

/-- `util.has_file_extension`: the regex `^.*\/[^\/]+\.[^\/]+$` holds of `url`
iff the string contains a slash and the segment after the last slash carries a
dot that is neither its first nor its last character. -/
def has_file_extension (s : String) : Bool :=
  s.data.any (fun c => c == '/') &&
    ((lastSeg s.data).drop 1).dropLast.any (fun c => c == '.')

/-- Does the string end with a slash? -/
def endsWithSlash (s : String) : Bool :=
  s.data.getLast? == some '/'

/-- `util.canonicalize` on one URL: normalize, remove query parameters, remove
the fragment, and append a trailing slash unless the string already ends with
a slash or names a file. -/
def canonicalize1 (u : Url) : Url :=
  let u3 := remove_fragment (url_query_cleaner (url_normalize u))
  if !(has_file_extension (serialize u3) || endsWithSlash (serialize u3)) then
    { u3 with path := u3.path ++ "/" }
  else u3

/-- `util.canonicalize`: translate a set of URLs into canonical form.  The
Python set is modelled as a list with set-like insertion. -/
def canonicalize (urls : List Url) : List Url :=
  urls.foldl (fun acc u => acc.insert (canonicalize1 u)) []

theorem toNat_ofNat_valid (n : Nat) (h : n < 0xd800) : (Char.ofNat n).toNat = n := by
  have hv : n.isValidChar := Or.inl h
  rw [Char.ofNat, dif_pos hv]
  rfl

theorem lowerChar_idem (c : Char) : lowerChar (lowerChar c) = lowerChar c := by
  unfold lowerChar
  split
  · rename_i h
    have h32 : (Char.ofNat (c.toNat + 32)).toNat = c.toNat + 32 :=
      toNat_ofNat_valid _ (by omega)
    rw [if_neg (by rw [h32]; omega)]
  · rfl

theorem lowerStr_idem (s : String) : lowerStr (lowerStr s) = lowerStr s := by
  simp only [lowerStr, List.map_map]
  congr 1
  exact List.map_congr_left (fun c _ => lowerChar_idem c)

theorem url_normalize_idem (u : Url) :
    url_normalize (url_normalize u) = url_normalize u := by
  unfold url_normalize
  simp only [lowerStr_idem]
  by_cases h : u.path = "" <;> simp [h]

/-- The fully reduced URL inside `canonicalize1` is a fixed point of the three
leading transformations. -/
theorem reduced_fixed (u : Url) :
    remove_fragment (url_query_cleaner (url_normalize
      (remove_fragment (url_query_cleaner (url_normalize u))))) =
    remove_fragment (url_query_cleaner (url_normalize u)) := by
  unfold url_normalize url_query_cleaner remove_fragment
  simp only [lowerStr_idem]
  by_cases h : u.path = "" <;> simp [h]

theorem serialize_append_slash (u : Url) (hq : u.query = none)
    (hf : u.fragment = none) :
    (serialize { u with path := u.path ++ "/" }).data = (serialize u).data ++ ['/'] := by
  simp [serialize, hq, hf, String.data_append]

theorem endsWithSlash_append (u : Url) (hq : u.query = none)
    (hf : u.fragment = none) :
    endsWithSlash (serialize { u with path := u.path ++ "/" }) = true := by
  simp [endsWithSlash, serialize_append_slash u hq hf, List.getLast?_concat]

/-- A URL in normal form is a fixed point of the three leading transformations
of `canonicalize1`. -/
theorem reduced_of_normalform (w : Url) (hq : w.query = none) (hf : w.fragment = none)
    (hs : lowerStr w.scheme = w.scheme) (hh : lowerStr w.host = w.host)
    (hp : w.path ≠ "") :
    remove_fragment (url_query_cleaner (url_normalize w)) = w := by
  cases w
  simp_all [url_normalize, url_query_cleaner, remove_fragment]

theorem append_slash_ne_empty (s : String) : s ++ "/" ≠ "" := by
  intro h
  have h2 := congrArg String.data h
  simp [String.data_append] at h2

theorem canonicalize1_idem (u : Url) :
    canonicalize1 (canonicalize1 u) = canonicalize1 u := by
  have hq : (remove_fragment (url_query_cleaner (url_normalize u))).query = none := rfl
  have hf : (remove_fragment (url_query_cleaner (url_normalize u))).fragment = none := rfl
  by_cases hcond :
      (has_file_extension (serialize (remove_fragment (url_query_cleaner (url_normalize u)))) ||
        endsWithSlash (serialize (remove_fragment (url_query_cleaner (url_normalize u))))) = true
  · have hv : canonicalize1 u = remove_fragment (url_query_cleaner (url_normalize u)) := by
      unfold canonicalize1
      simp [hcond]
    rw [hv]
    unfold canonicalize1
    rw [reduced_fixed]
    simp [hcond]
  · have hv : canonicalize1 u =
        { remove_fragment (url_query_cleaner (url_normalize u)) with
            path := (remove_fragment (url_query_cleaner (url_normalize u))).path ++ "/" } := by
      unfold canonicalize1
      simp [hcond]
    rw [hv]
    unfold canonicalize1
    rw [reduced_of_normalform _ rfl rfl (lowerStr_idem u.scheme) (lowerStr_idem u.host)
      (append_slash_ne_empty _)]
    simp [endsWithSlash_append _ hq hf]

/-- Sanity checks of the canonical form on concrete URLs, matching the spec's
examples: query and fragment are stripped, a trailing slash is appended, and a
filename keeps its form. -/
example :
    canonicalize1 ⟨"https", "a.com", "/x", some "b=1", some "frag"⟩ =
      ⟨"https", "a.com", "/x/", none, none⟩ := by decide

example :
    canonicalize1 ⟨"https", "a.com", "/file.pdf", none, none⟩ =
      ⟨"https", "a.com", "/file.pdf", none, none⟩ := by decide

/-! ## String-level URL utilities -/

/-- Split a character list at the first occurrence of `://`, returning the
characters before it and the characters after it. -/
def splitScheme : List Char → Option (List Char × List Char)
  | [] => none
  | ':' :: '/' :: '/' :: rest => some ([], rest)
  | c :: rest =>
      match splitScheme rest with
      | some (sch, rem) => some (c :: sch, rem)
      | none => none

/-- Model of the library URL parser on absolute `http(s)` URL strings: scheme
before `://`, host up to the first `/`, `?` or `#`, then path, query and
fragment. -/
def parseUrl (s : String) : Url :=
  match splitScheme s.data with
  | none => ⟨"", "", s, none, none⟩
  | some (sch, rest) =>
      let hostCs := rest.takeWhile (fun c => c != '/' && c != '?' && c != '#')
      let rest1 := rest.drop hostCs.length
      let pathCs := rest1.takeWhile (fun c => c != '?' && c != '#')
      let rest2 := rest1.drop pathCs.length
      let query : Option String :=
        match rest2 with
        | '?' :: t => some ⟨t.takeWhile (fun c => c != '#')⟩
        | _ => none
      let fragment : Option String :=
        match rest2.dropWhile (fun c => c != '#') with
        | '#' :: t => some ⟨t⟩
        | _ => none
      ⟨⟨sch⟩, ⟨hostCs⟩, ⟨pathCs⟩, query, fragment⟩

/-- `util.canonicalize` on one URL string: parse, canonicalize, render. -/
def canonicalizeStr (s : String) : String :=
  serialize (canonicalize1 (parseUrl s))

/-- `util.canonicalize` on a set of URL strings, as called by the link and
sitemap extractors. -/
def canonicalizeStrList (urls : List String) : List String :=
  urls.foldl (fun acc u => acc.insert (canonicalizeStr u)) []

example : canonicalizeStr "https://a.si/x" = "https://a.si/x/" := by decide

example : canonicalizeStr "HTTPS://A.com/x?b=1#frag" = "https://a.com/x/" := by decide

/-- Substring containment on character lists (Python's `in` on strings). -/
def hasSub (pat : List Char) : List Char → Bool
  | [] => pat == []
  | c :: rest => ((c :: rest).take pat.length == pat) || hasSub pat rest

/-- Python `str.endswith` on character lists. -/
def strEndsWith (s post : String) : Bool :=
  s.data.reverse.take post.data.length == post.data.reverse

/-- `util.check_if_binary`, boolean part: does the URL end with one of the
binary file extensions?  The extension table lives in the constants module,
which is not among the sources, so it is passed as a parameter. -/
def check_if_binary (exts : List String) (url : String) : Bool :=
  exts.any (fun e => strEndsWith url e)

/-- Oracles for the external and constants-module functions consumed by the
link and sitemap extractors: `is_url` (library URL-format check), the
scheme-and-netloc test used by `fill_url`, the two `onclick` navigation
regexes of the constants module (not among the sources), `allowed`
(`util.is_url_allowed`, i.e. `robot_file_parser.can_fetch`), and
`domainAllowed` (`util.is_domain_allowed`, the `govsi_regex` domain
allow-list of the constants module). -/
structure LinkEnv where
  is_url : String → Bool
  hasSchemeNetloc : String → Bool
  assignNav : String → Option String
  funcNav : String → Option String
  allowed : String → Bool
  domainAllowed : String → Bool

/-- `util.fill_url`: keep a URL that already has scheme and netloc, otherwise
resolve it against the current page's scheme and netloc. -/
def fill_url (env : LinkEnv) (base_scheme base_netloc : String) (url : String) :
    String :=
  if env.hasSchemeNetloc url then url
  else base_scheme ++ "://" ++ base_netloc ++ url

/-- One clickable element selected by `find_links` (`a, [onclick]`). -/
structure Element where
  href : Option String
  onclick : Option String

/-- The `onclick` arm of `find_links`: try the direct-assignment regex, then
the function-call regex. -/
def navExtract (env : LinkEnv) (oc : String) : Option String :=
  match env.assignNav oc with
  | some u => some u
  | none => env.funcNav oc

/-- The candidate URL `find_links` reads off one element: the `href` when it
is URL-shaped, otherwise the `onclick` extraction when an `onclick` attribute
is present. -/
def candidateOf (env : LinkEnv) (e : Element) : Option String :=
  match e.href with
  | some h =>
      if env.is_url h then some h
      else
        match e.onclick with
        | some oc => navExtract env oc
        | none => none
  | none =>
      match e.onclick with
      | some oc => navExtract env oc
      | none => none

/-- The per-element body of the `find_links` loop: fill the candidate URL and
keep it when the robots and domain-allow checks pass. -/
def candStep (env : LinkEnv) (base_scheme base_netloc : String)
    (acc : List String) (e : Element) : List String :=
  match candidateOf env e with
  | none => acc
  | some u =>
      if env.allowed (fill_url env base_scheme base_netloc u) &&
          env.domainAllowed (fill_url env base_scheme base_netloc u) then
        acc.insert (fill_url env base_scheme base_netloc u)
      else acc

/-- The set `new_urls` that `find_links` accumulates before canonicalizing. -/
def rawCandidates (env : LinkEnv) (els : List Element)
    (base_scheme base_netloc : String) : List String :=
  els.foldl (candStep env base_scheme base_netloc) []

/-- `link_extractor.find_links`: extract candidate URLs from the clickable
elements, fill them against the base URL, keep those passing the robots and
domain-allow checks, and canonicalize the resulting set.  Note the order: the
allow checks run on the filled URL, the canonicalization afterwards. -/
def find_links (env : LinkEnv) (els : List Element)
    (base_scheme base_netloc : String) : List String :=
  canonicalizeStrList (rawCandidates env els base_scheme base_netloc)

/-- `page_extractor.extract_binary_links`: partition a URL set into crawlable
URLs and binary-file URLs. -/
def extract_binary_links (exts : List String) (urls : List String) :
    List String × List String :=
  (urls.filter (fun u => !(check_if_binary exts u)),
   urls.filter (fun u => check_if_binary exts u))

/-! ## Sitemap walk -/

/-- Is a `loc` entry an internal sitemap node (walked further) rather than a
leaf URL? -/
def isSitemapNode (url : String) : Bool :=
  strEndsWith url ".xml" || hasSub "sitemap.xml".data url.data

/-- One iteration of the `for loc in xml.find_all("loc")` loop of
`get_sitemap_urls`: a sitemap-like entry is walked by `child` and its URLs
merged in, every other entry is added as a leaf URL.  `none` threads a
fuel-exhausted child walk through to the caller. -/
def locStep (child : String → Option (List String))
    (st : Option (List String)) (loc : String) : Option (List String) :=
  match st with
  | none => none
  | some s =>
      if isSitemapNode loc then
        match child loc with
        | none => none
        | some s2 => some (s2.foldl (fun t x => t.insert x) s)
      else some (s.insert loc)

/-- The whole `loc` loop of `get_sitemap_urls`. -/
def walkLocs (child : String → Option (List String))
    (st : Option (List String)) (locs : List String) : Option (List String) :=
  locs.foldl (locStep child) st

/-- `page_extractor.get_sitemap_urls`.  `world url` is the outcome of fetching
and XML-parsing the sitemap at `url`: `none` models an unreachable, non-200 or
malformed document, `some locs` the text of its `loc` entries.  The Python
recursion is unbounded, so it is driven by fuel here; a `none` result means
the fuel ran out, and every Python call site passes no accumulator
(`acc = none`). -/
def get_sitemap_urls (world : String → Option (List String)) :
    Nat → String → Option (List String) → Option (List String)
  | 0, _, _ => none
  | n + 1, url, acc =>
      match world url with
      | none => some (acc.getD [])
      | some locs =>
          walkLocs (fun loc => get_sitemap_urls world n loc none)
            (some (acc.getD [])) locs

/-- `page_extractor.find_sitemap_links`: walk the sitemaps declared in
robots.txt (or `/sitemap.xml` at the root when none are declared),
canonicalize the collected URLs, and keep those passing the robots and
domain-allow checks.  Note the order: here the allow checks run after
canonicalization. -/
def find_sitemap_links (env : LinkEnv) (world : String → Option (List String))
    (fuel : Nat) (siteMapsDecl : Option (List String))
    (base_scheme base_netloc : String) : Option (List String) :=
  let roots := match siteMapsDecl with
    | some l => l
    | none => [base_scheme ++ "://" ++ base_netloc ++ "/sitemap.xml"]
  let walked := roots.foldl (fun st root =>
      match st with
      | none => none
      | some s =>
          match get_sitemap_urls world fuel root none with
          | none => none
          | some s2 => some (s2.foldl (fun t x => t.insert x) s)) (some [])
  match walked with
  | none => none
  | some s =>
      some ((canonicalizeStrList s).filter (fun u => env.allowed u && env.domainAllowed u))

/-! ## The page fetcher and the crawl step -/

/-- The tuple returned by `page_extractor.get_page`: final browser URL, HTML
body (absent for binary downloads), document type (present only for binary
downloads) and HTTP status. -/
structure FetchOk where
  url : String
  html : Option String
  data_type : Option String
  status : Nat
deriving DecidableEq, Repr

/-- Outcome of the browser navigation (`page.goto`): success, an aborted-load
error (the shape that triggers the binary-download fallback), or any other
error shape (re-raised). -/
inductive GotoResult where
  | ok (url : String) (html : String) (status : Nat)
  | errAborted
  | errOtherShape
deriving DecidableEq, Repr

/-- The external network behavior one `get_page` call observes: the navigation
outcome, the raw-download fallback outcome (`none` when `requests.get`
raises), the content-type to document-type classification, and the browser's
current URL. -/
structure PageEnv where
  goto : GotoResult
  download : Option (Nat × String)
  extOf : String → String
  browser_url : String

/-- `page_extractor.get_page`.  `Except.error` models the re-raised
navigation error; `Except.ok none` models the paths on which the Python
function falls through and implicitly returns `None` (fallback download
raised, non-200 fallback status, or a fallback that classified as HTML) —
the caller's tuple unpacking then raises, so both shapes reach the failure
handler of `crawl_url`. -/
def get_page (pe : PageEnv) : Except Unit (Option FetchOk) :=
  match pe.goto with
  | GotoResult.ok url html status => Except.ok (some ⟨url, some html, none, status⟩)
  | GotoResult.errAborted =>
      match pe.download with
      | none => Except.ok none
      | some (status, ctype) =>
          if status != 200 then Except.ok none
          else if pe.extOf ctype != "HTML" then
            Except.ok (some ⟨pe.browser_url, none, some (pe.extOf ctype), status⟩)
          else Except.ok none
  | GotoResult.errOtherShape => Except.error ()

/-- Environment of one crawl step: the extractor oracles plus the external
functions `crawl_url` consumes (URL fixing, URL parsing, DNS, the robots
parser's textual state and declared sitemaps, the sitemap-fetch world and a
walk fuel, the per-URL browser behavior, the content hash, the DOM elements
of an HTML body, and the binary-extension table). -/
structure CrawlEnv where
  linkEnv : LinkEnv
  fixShort : String → String
  schemeOf : String → String
  netlocOf : String → String
  ipOf : String → Option String
  robotsStr : String
  siteMapsDecl : Option (List String)
  world : String → Option (List String)
  fuel : Nat
  pageEnvOf : String → PageEnv
  hashOf : String → String
  domElements : String → List Element
  binExts : List String

/-- The redirect handling of `crawl_url`: when the canonical landing URL
differs from the requested URL, convert the current page to `REDIRECT`,
insert (or find) a page for the landing URL, link old to new, and continue
under the new page id. -/
def redirect_step (db : DB) (page_id : Nat) (current_url page_url : String)
    (site_id : Nat) : Nat × DB :=
  if current_url != page_url then
    let db1 := update_page_redirect db page_id site_id
    let res := create_new_page db1 page_url site_id PageState.FRONTIER
    let db3 := add_page_link res.2 res.1 page_id
    (res.1, db3)
  else (page_id, db)

/-- The HTML branch of `crawl_url`: hash the body; on a hash collision mark
the current page `DUPLICATE` and link it to the original, extracting no DOM
links; otherwise extract DOM links, split off binary links, and persist the
page as `HTML` with its hash. -/
def html_step (env : CrawlEnv) (db : DB) (pid : Nat) (current_url : String)
    (html : String) (status : Nat) (site_id : Nat) : List String × DB :=
  let html_hash := env.hashOf html
  match check_pages_hash_collision db html_hash with
  | some (original_page_id, original_site_id) =>
      let db1 := update_page db pid status original_site_id none none PageState.DUPLICATE
      let db2 := add_page_link db1 original_page_id pid
      ([], db2)
  | none =>
      let page_urls := find_links env.linkEnv (env.domElements html)
        (env.schemeOf current_url) (env.netlocOf current_url)
      let parts := extract_binary_links env.binExts page_urls
      let db1 := update_page db pid status (some site_id) (some html)
        (some html_hash) PageState.HTML
      (parts.1, db1)

/-- The binary branch of `crawl_url`: when the fallback produced a document
type, persist the page as `BINARY`; otherwise store nothing. -/
def binary_step (db : DB) (pid : Nat) (status : Nat) (site_id : Nat)
    (data_type : Option String) : DB :=
  match data_type with
  | some _ => update_page db pid status (some site_id) none none PageState.BINARY
  | none => db

/-- One iteration of the frontier-expansion loop at the end of `crawl_url`:
push one link, and link the current page to it when it was actually
inserted. -/
def pushStep (pid : Nat) (d : DB) (link : String) : DB :=
  match add_to_frontier d link with
  | (some link_id, d1) => add_page_link d1 link_id pid
  | (none, d1) => d1

/-- The whole frontier-expansion loop at the end of `crawl_url`. -/
def push_links (db : DB) (pid : Nat) (links : List String) : DB :=
  links.foldl (pushStep pid) db

/-- The site-resolution prefix of `crawl_url`: an already-visited domain is
read back and its sitemaps skipped; a first-visit domain is saved (robots
text and declared-sitemap listing included) and its sitemap tree walked.
Returns (site id, sitemap URLs, database).  A fuel-exhausted sitemap walk is
collapsed to the empty set here; the walk itself is analyzed with explicit
fuel above. -/
def site_step (env : CrawlEnv) (db : DB) (current_url : String) :
    Nat × List String × DB :=
  match get_site db (env.netlocOf current_url) with
  | some (sid, _, _, _) => (sid, [], db)
  | none =>
      ((save_site db (env.netlocOf current_url) (some env.robotsStr)
          (env.siteMapsDecl.map (fun l => String.intercalate "," l))).1,
       (find_sitemap_links env.linkEnv env.world env.fuel env.siteMapsDecl
          (env.schemeOf current_url) (env.netlocOf current_url)).getD [],
       (save_site db (env.netlocOf current_url) (some env.robotsStr)
          (env.siteMapsDecl.map (fun l => String.intercalate "," l))).2)

/-- The tail of a successful crawl step, entered after redirect handling
under the (possibly replaced) page id `pid`: the duplicate/HTML branch or the
binary branch, followed by the frontier-expansion loop over the union of
DOM-derived and sitemap-derived URLs. -/
def after_redirect (env : CrawlEnv) (db1 : DB) (pid : Nat) (current_url : String)
    (site_id : Nat) (sitemap_urls : List String) (r : FetchOk) : DB :=
  match r.html with
  | some html =>
      push_links (html_step env db1 pid current_url html r.status site_id).2 pid
        (((html_step env db1 pid current_url html r.status site_id).1 ++ sitemap_urls).dedup)
  | none =>
      push_links (binary_step db1 pid r.status site_id r.data_type) pid
        ((([] : List String) ++ sitemap_urls).dedup)

/-- `spider.crawl_url` over one database state.  A failed DNS lookup returns
with no state change; the site is resolved by `site_step`; a raised or
`None`-shaped fetch marks the page `FAILED` (and still pushes the sitemap
URLs, as the source's final loop runs outside the `try` block); otherwise
redirect handling runs and `after_redirect` finishes the step under the
possibly replaced page id. -/
def crawl_url (env : CrawlEnv) (db : DB) (page_id : Nat) (start_url : String) : DB :=
  match env.ipOf (env.netlocOf (env.fixShort start_url)) with
  | none => db
  | some _ip =>
      match get_page (env.pageEnvOf (env.fixShort start_url)) with
      | Except.error _ =>
          push_links
            (mark_page_as_failed (site_step env db (env.fixShort start_url)).2.2 page_id
              (some (site_step env db (env.fixShort start_url)).1)) page_id
            (site_step env db (env.fixShort start_url)).2.1
      | Except.ok none =>
          push_links
            (mark_page_as_failed (site_step env db (env.fixShort start_url)).2.2 page_id
              (some (site_step env db (env.fixShort start_url)).1)) page_id
            (site_step env db (env.fixShort start_url)).2.1
      | Except.ok (some r) =>
          after_redirect env
            (redirect_step (site_step env db (env.fixShort start_url)).2.2 page_id
              (env.fixShort start_url) (canonicalizeStr r.url)
              (site_step env db (env.fixShort start_url)).1).2
            (redirect_step (site_step env db (env.fixShort start_url)).2.2 page_id
              (env.fixShort start_url) (canonicalizeStr r.url)
              (site_step env db (env.fixShort start_url)).1).1
            (env.fixShort start_url) (site_step env db (env.fixShort start_url)).1
            (site_step env db (env.fixShort start_url)).2.1 r

/-- `spider.start_spider`: pop and crawl until the frontier pop yields none.
The loop is driven by fuel; `none` means the fuel ran out with the loop still
running.  The per-iteration exception handler of the source is unreachable
here because the modelled `crawl_url` is total. -/
def start_spider (env : CrawlEnv) : Nat → DB → Option DB
  | 0, _ => none
  | n + 1, db =>
      match pop_frontier db with
      | (none, db') => some db'
      | (some (frontier_id, url), db') =>
          start_spider env n (crawl_url env db' frontier_id url)

/-! ## Lock-granular model of concurrent `pop_frontier`

`pop_frontier` runs `SELECT ... WHERE page_type_code = FRONTIER LIMIT 1 FOR
UPDATE`, then `UPDATE ... SET page_type_code = CRAWLING`, then `COMMIT`.  We
model two concurrent callers at the granularity of these three statements,
with explicit row locks: the select acquires the row lock of the first
`FRONTIER` row and blocks while another transaction holds it, the update
rewrites the row's state, and the commit releases the caller's locks.  (This
is slightly coarser than snapshot isolation: the model lets the second caller
observe the uncommitted state change, which only adds interleavings and so
only strengthens the mutual-exclusion result.) -/

/-- Program counter of one `pop_frontier` caller. -/
inductive WorkerPC where
  | start
  | gotRow (id : Nat) (url : String)
  | updated (id : Nat) (url : String)
  | done (res : Option (Nat × String))
deriving DecidableEq, Repr

/-- Shared state: the `Page` rows, the row-lock table, and both callers. -/
structure PopSystem where
  pages : List PageRow
  lockOwner : Nat → Option (Fin 2)
  worker : Fin 2 → WorkerPC

/-- The row the `SELECT ... LIMIT 1` statement targets. -/
def firstFrontier (pages : List PageRow) : Option PageRow :=
  pages.find? (fun p => p.page_type_code == PageState.FRONTIER)

/-- The `UPDATE ... SET page_type_code = CRAWLING` statement. -/
def setCrawling (pages : List PageRow) (i : Nat) : List PageRow :=
  pages.map (fun q =>
    if q.id == i then { q with page_type_code := PageState.CRAWLING } else q)

/-- Replace one worker's program counter. -/
def updWorker (f : Fin 2 → WorkerPC) (w : Fin 2) (pc : WorkerPC) :
    Fin 2 → WorkerPC :=
  fun w' => if w' = w then pc else f w'

/-- One interleaved statement of the two concurrent `pop_frontier` calls. -/
inductive PopStep : PopSystem → PopSystem → Prop where
  | selectRow (s : PopSystem) (w : Fin 2) (p : PageRow) :
      s.worker w = WorkerPC.start →
      firstFrontier s.pages = some p →
      s.lockOwner p.id = none →
      PopStep s
        { pages := s.pages,
          lockOwner := fun i => if i = p.id then some w else s.lockOwner i,
          worker := updWorker s.worker w (WorkerPC.gotRow p.id p.url) }
  | selectNone (s : PopSystem) (w : Fin 2) :
      s.worker w = WorkerPC.start →
      firstFrontier s.pages = none →
      PopStep s
        { pages := s.pages,
          lockOwner := s.lockOwner,
          worker := updWorker s.worker w (WorkerPC.done none) }
  | updateRow (s : PopSystem) (w : Fin 2) (i : Nat) (u : String) :
      s.worker w = WorkerPC.gotRow i u →
      PopStep s
        { pages := setCrawling s.pages i,
          lockOwner := s.lockOwner,
          worker := updWorker s.worker w (WorkerPC.updated i u) }
  | commit (s : PopSystem) (w : Fin 2) (i : Nat) (u : String) :
      s.worker w = WorkerPC.updated i u →
      PopStep s
        { pages := s.pages,
          lockOwner := fun j => if s.lockOwner j = some w then none else s.lockOwner j,
          worker := updWorker s.worker w (WorkerPC.done (some (i, u))) }

/-- The page id a caller currently holds a claim on. -/
def claimOf : WorkerPC → Option Nat
  | WorkerPC.gotRow i _ => some i
  | WorkerPC.updated i _ => some i
  | WorkerPC.done (some (i, _)) => some i
  | _ => none

/-- The state of the row with id `i`. -/
def rowState (pages : List PageRow) (i : Nat) : Option PageState :=
  (pages.find? (fun p => p.id == i)).map (fun p => p.page_type_code)

/-- Inductive invariant of the interleaved system: row ids stay distinct; a
selected-but-not-yet-updated row is locked by its selector and still
`FRONTIER`; an updated or returned row is `CRAWLING`; and the two callers
never claim the same row. -/
structure PopInv (s : PopSystem) : Prop where
  nodup : (s.pages.map (fun p => p.id)).Nodup
  lockClaim : ∀ w i u, s.worker w = WorkerPC.gotRow i u →
      s.lockOwner i = some w ∧ rowState s.pages i = some PageState.FRONTIER
  updClaim : ∀ w i u, s.worker w = WorkerPC.updated i u →
      rowState s.pages i = some PageState.CRAWLING
  doneClaim : ∀ w i u, s.worker w = WorkerPC.done (some (i, u)) →
      rowState s.pages i = some PageState.CRAWLING
  distinct : ∀ w w', w ≠ w' → ∀ i, claimOf (s.worker w) = some i →
      claimOf (s.worker w') = some i → False

theorem rowState_of_mem (pages : List PageRow)
    (hnd : (pages.map (fun p => p.id)).Nodup) (p : PageRow) (hp : p ∈ pages) :
    rowState pages p.id = some p.page_type_code := by
  induction pages with
  | nil => cases hp
  | cons q rest ih =>
      rw [List.map_cons, List.nodup_cons] at hnd
      rcases List.mem_cons.mp hp with h | h
      · subst h
        simp [rowState, List.find?_cons]
      · have hne : (q.id == p.id) = false := by
          apply beq_false_of_ne
          intro he
          exact hnd.1 (he ▸ List.mem_map_of_mem (fun r => r.id) h)
        simp only [rowState, List.find?_cons, hne]
        exact ih hnd.2 h

theorem setCrawling_ids (pages : List PageRow) (i : Nat) :
    (setCrawling pages i).map (fun p => p.id) = pages.map (fun p => p.id) := by
  simp only [setCrawling, List.map_map]
  apply List.map_congr_left
  intro q _
  by_cases h : q.id = i <;> simp [h]

theorem find?_id_setCrawling (pages : List PageRow) (i j : Nat) :
    (setCrawling pages i).find? (fun p => p.id == j) =
      (pages.find? (fun p => p.id == j)).map (fun q =>
        if q.id == i then { q with page_type_code := PageState.CRAWLING } else q) := by
  unfold setCrawling
  have hp : ((fun p : PageRow => p.id == j) ∘ fun q =>
      if q.id == i then { q with page_type_code := PageState.CRAWLING } else q) =
      (fun p : PageRow => p.id == j) := by
    funext q
    by_cases h : q.id = i <;> simp [h]
  rw [List.find?_map, hp]

theorem rowState_setCrawling_same (pages : List PageRow) (i : Nat) :
    rowState (setCrawling pages i) i =
      (rowState pages i).map (fun _ => PageState.CRAWLING) := by
  unfold rowState
  rw [find?_id_setCrawling]
  cases hfind : pages.find? (fun p => p.id == i) with
  | none => rfl
  | some q =>
      have h0 := List.find?_some hfind
      have hq : q.id = i := by simpa using h0
      simp [hq]

theorem rowState_setCrawling_other (pages : List PageRow) (i j : Nat) (hij : j ≠ i) :
    rowState (setCrawling pages i) j = rowState pages j := by
  unfold rowState
  rw [find?_id_setCrawling]
  cases hfind : pages.find? (fun p => p.id == j) with
  | none => rfl
  | some q =>
      have h0 := List.find?_some hfind
      have hq : q.id = j := by simpa using h0
      have hqi : ¬ q.id = i := by
        rw [hq]
        exact hij
      simp [hqi]

theorem popInv_step {s s' : PopSystem} (hstep : PopStep s s') (hinv : PopInv s) :
    PopInv s' := by
  obtain ⟨hnd, hlock, hupd, hdone, hdist⟩ := hinv
  cases hstep with
  | selectRow w p hw hff hlk =>
      have hff' : s.pages.find? (fun q => q.page_type_code == PageState.FRONTIER) = some p := hff
      have hpmem : p ∈ s.pages := List.mem_of_find?_eq_some hff'
      have hpfr : p.page_type_code = PageState.FRONTIER := by
        have h0 := List.find?_some hff'
        simpa using h0
      have hprow : rowState s.pages p.id = some PageState.FRONTIER := by
        rw [rowState_of_mem s.pages hnd p hpmem, hpfr]
      refine ⟨hnd, ?_, ?_, ?_, ?_⟩
      · intro w'' i u hw''
        simp only [updWorker] at hw''
        by_cases hww : w'' = w
        · subst hww
          rw [if_pos rfl] at hw''
          cases hw''
          constructor
          · simp
          · exact hprow
        · rw [if_neg hww] at hw''
          obtain ⟨hl, hr⟩ := hlock w'' i u hw''
          have hne : i ≠ p.id := by
            intro he
            rw [he, hlk] at hl
            cases hl
          constructor
          · simp only [if_neg hne]
            exact hl
          · exact hr
      · intro w'' i u hw''
        simp only [updWorker] at hw''
        by_cases hww : w'' = w
        · rw [if_pos hww] at hw''
          cases hw''
        · rw [if_neg hww] at hw''
          exact hupd w'' i u hw''
      · intro w'' i u hw''
        simp only [updWorker] at hw''
        by_cases hww : w'' = w
        · rw [if_pos hww] at hw''
          cases hw''
        · rw [if_neg hww] at hw''
          exact hdone w'' i u hw''
      · intro w1 w2 hne i h1 h2
        simp only [updWorker] at h1 h2
        by_cases hw1 : w1 = w
        · rw [if_pos hw1] at h1
          have hw2 : ¬(w2 = w) := fun h => hne (hw1.trans h.symm)
          rw [if_neg hw2] at h2
          simp only [claimOf] at h1
          cases h1
          cases hpc : s.worker w2 with
          | start => rw [hpc] at h2; cases h2
          | gotRow j v =>
              rw [hpc] at h2
              simp only [claimOf] at h2
              cases h2
              obtain ⟨hl, _⟩ := hlock w2 p.id v hpc
              rw [hlk] at hl
              cases hl
          | updated j v =>
              rw [hpc] at h2
              simp only [claimOf] at h2
              cases h2
              have := hupd w2 p.id v hpc
              rw [hprow] at this
              cases this
          | done res =>
              rw [hpc] at h2
              cases res with
              | none => cases h2
              | some iv =>
                  obtain ⟨j, v⟩ := iv
                  simp only [claimOf] at h2
                  cases h2
                  have := hdone w2 p.id v (by rw [hpc])
                  rw [hprow] at this
                  cases this
        · rw [if_neg hw1] at h1
          by_cases hw2 : w2 = w
          · rw [if_pos hw2] at h2
            simp only [claimOf] at h2
            cases h2
            cases hpc : s.worker w1 with
            | start => rw [hpc] at h1; cases h1
            | gotRow j v =>
                rw [hpc] at h1
                simp only [claimOf] at h1
                cases h1
                obtain ⟨hl, _⟩ := hlock w1 p.id v hpc
                rw [hlk] at hl
                cases hl
            | updated j v =>
                rw [hpc] at h1
                simp only [claimOf] at h1
                cases h1
                have := hupd w1 p.id v hpc
                rw [hprow] at this
                cases this
            | done res =>
                rw [hpc] at h1
                cases res with
                | none => cases h1
                | some iv =>
                    obtain ⟨j, v⟩ := iv
                    simp only [claimOf] at h1
                    cases h1
                    have := hdone w1 p.id v (by rw [hpc])
                    rw [hprow] at this
                    cases this
          · rw [if_neg hw2] at h2
            exact hdist w1 w2 hne i h1 h2
  | selectNone w hw hff =>
      refine ⟨hnd, ?_, ?_, ?_, ?_⟩
      · intro w'' i u hw''
        simp only [updWorker] at hw''
        by_cases hww : w'' = w
        · rw [if_pos hww] at hw''
          cases hw''
        · rw [if_neg hww] at hw''
          exact hlock w'' i u hw''
      · intro w'' i u hw''
        simp only [updWorker] at hw''
        by_cases hww : w'' = w
        · rw [if_pos hww] at hw''
          cases hw''
        · rw [if_neg hww] at hw''
          exact hupd w'' i u hw''
      · intro w'' i u hw''
        simp only [updWorker] at hw''
        by_cases hww : w'' = w
        · rw [if_pos hww] at hw''
          cases hw''
        · rw [if_neg hww] at hw''
          exact hdone w'' i u hw''
      · intro w1 w2 hne i h1 h2
        simp only [updWorker] at h1 h2
        by_cases hw1 : w1 = w
        · rw [if_pos hw1] at h1
          cases h1
        · rw [if_neg hw1] at h1
          by_cases hw2 : w2 = w
          · rw [if_pos hw2] at h2
            cases h2
          · rw [if_neg hw2] at h2
            exact hdist w1 w2 hne i h1 h2
  | updateRow w i u hw =>
      have hclaimw : claimOf (s.worker w) = some i := by rw [hw]; rfl
      have hother : ∀ w'' , w'' ≠ w → ∀ j, claimOf (s.worker w'') = some j → j ≠ i := by
        intro w'' hne j hj he
        exact hdist w'' w hne i (he ▸ hj) hclaimw
      refine ⟨?_, ?_, ?_, ?_, ?_⟩
      · rw [setCrawling_ids]
        exact hnd
      · intro w'' j v hw''
        simp only [updWorker] at hw''
        by_cases hww : w'' = w
        · rw [if_pos hww] at hw''
          cases hw''
        · rw [if_neg hww] at hw''
          obtain ⟨hl, hr⟩ := hlock w'' j v hw''
          have hji : j ≠ i := hother w'' hww j (by rw [hw'']; rfl)
          constructor
          · exact hl
          · rw [rowState_setCrawling_other s.pages i j hji]
            exact hr
      · intro w'' j v hw''
        simp only [updWorker] at hw''
        by_cases hww : w'' = w
        · rw [if_pos hww] at hw''
          cases hw''
          obtain ⟨_, hr⟩ := hlock w i u hw
          rw [rowState_setCrawling_same, hr]
          rfl
        · rw [if_neg hww] at hw''
          have hji : j ≠ i := hother w'' hww j (by rw [hw'']; rfl)
          rw [rowState_setCrawling_other s.pages i j hji]
          exact hupd w'' j v hw''
      · intro w'' j v hw''
        simp only [updWorker] at hw''
        by_cases hww : w'' = w
        · rw [if_pos hww] at hw''
          cases hw''
        · rw [if_neg hww] at hw''
          have hji : j ≠ i := hother w'' hww j (by rw [hw'']; rfl)
          rw [rowState_setCrawling_other s.pages i j hji]
          exact hdone w'' j v hw''
      · intro w1 w2 hne j h1 h2
        simp only [updWorker] at h1 h2
        have hcl : ∀ w0, claimOf (if w0 = w then WorkerPC.updated i u else s.worker w0) =
            claimOf (s.worker w0) := by
          intro w0
          by_cases hww : w0 = w
          · rw [if_pos hww, hww, hw]
            rfl
          · rw [if_neg hww]
        rw [hcl] at h1 h2
        exact hdist w1 w2 hne j h1 h2
  | commit w i u hw =>
      have hclaimw : claimOf (s.worker w) = some i := by rw [hw]; rfl
      refine ⟨hnd, ?_, ?_, ?_, ?_⟩
      · intro w'' j v hw''
        simp only [updWorker] at hw''
        by_cases hww : w'' = w
        · rw [if_pos hww] at hw''
          cases hw''
        · rw [if_neg hww] at hw''
          obtain ⟨hl, hr⟩ := hlock w'' j v hw''
          constructor
          · have hneq : ¬(s.lockOwner j = some w) := by
              rw [hl]
              intro he
              exact hww (Option.some_injective _ he)
            simp only [if_neg hneq]
            exact hl
          · exact hr
      · intro w'' j v hw''
        simp only [updWorker] at hw''
        by_cases hww : w'' = w
        · rw [if_pos hww] at hw''
          cases hw''
        · rw [if_neg hww] at hw''
          exact hupd w'' j v hw''
      · intro w'' j v hw''
        simp only [updWorker] at hw''
        by_cases hww : w'' = w
        · rw [if_pos hww] at hw''
          cases hw''
          exact hupd w i u hw
        · rw [if_neg hww] at hw''
          exact hdone w'' j v hw''
      · intro w1 w2 hne j h1 h2
        simp only [updWorker] at h1 h2
        have hcl : ∀ w0, claimOf (if w0 = w then WorkerPC.done (some (i, u)) else s.worker w0) =
            claimOf (s.worker w0) := by
          intro w0
          by_cases hww : w0 = w
          · rw [if_pos hww, hww, hw]
            rfl
          · rw [if_neg hww]
        rw [hcl] at h1 h2
        exact hdist w1 w2 hne j h1 h2

theorem popInv_reach {s s' : PopSystem}
    (hreach : Relation.ReflTransGen PopStep s s') (hinv : PopInv s) : PopInv s' := by
  induction hreach with
  | refl => exact hinv
  | tail _ hstep ih => exact popInv_step hstep ih

/-! ## Preservation lemmas for the crawl step -/

theorem find?_id_map_cond (pages : List PageRow) (pid j : Nat) (f : PageRow → PageRow)
    (hf : ∀ q, (f q).id = q.id) :
    (pages.map (fun q => if q.id == pid then f q else q)).find? (fun p => p.id == j) =
      (pages.find? (fun p => p.id == j)).map (fun q => if q.id == pid then f q else q) := by
  have hp : ((fun p : PageRow => p.id == j) ∘ fun q => if q.id == pid then f q else q) =
      (fun p : PageRow => p.id == j) := by
    funext q
    by_cases h : q.id = pid
    · simp [h, hf]
    · simp [h]
  rw [List.find?_map, hp]

theorem find?_map_cond_other (pages : List PageRow) (pid j : Nat) (f : PageRow → PageRow)
    (hf : ∀ q, (f q).id = q.id) (hj : j ≠ pid) :
    (pages.map (fun q => if q.id == pid then f q else q)).find? (fun p => p.id == j) =
      pages.find? (fun p => p.id == j) := by
  rw [find?_id_map_cond pages pid j f hf]
  cases hfind : pages.find? (fun p => p.id == j) with
  | none => rfl
  | some q =>
      have hq : q.id = j := by simpa using List.find?_some hfind
      simp [hq, hj]

theorem find?_map_cond_self (pages : List PageRow) (pid : Nat) (f : PageRow → PageRow)
    (hf : ∀ q, (f q).id = q.id) (q : PageRow)
    (h : pages.find? (fun p => p.id == pid) = some q) :
    (pages.map (fun r => if r.id == pid then f r else r)).find? (fun p => p.id == pid) =
      some (f q) := by
  have hq : q.id = pid := by simpa using List.find?_some h
  rw [find?_id_map_cond pages pid pid f hf, h]
  simp [hq]

theorem getPage_update_page_other (db : DB) (pid : Nat) (status : Nat) (site : Option Nat)
    (html hash : Option String) (ptc : PageState) (j : Nat) (hj : j ≠ pid) :
    (update_page db pid status site html hash ptc).getPage j = db.getPage j := by
  exact find?_map_cond_other db.pages pid j
    (fun q => { q with
      page_type_code := ptc, html_content := html, http_status_code := some status,
      site_id := site, html_content_hash := hash })
    (fun q => rfl) hj

theorem getPage_update_page_self (db : DB) (pid : Nat) (status : Nat) (site : Option Nat)
    (html hash : Option String) (ptc : PageState) (q : PageRow)
    (h : db.getPage pid = some q) :
    (update_page db pid status site html hash ptc).getPage pid =
      some { q with
        page_type_code := ptc, html_content := html,
        http_status_code := some status, site_id := site,
        html_content_hash := hash } := by
  exact find?_map_cond_self db.pages pid
    (fun q => { q with
      page_type_code := ptc, html_content := html, http_status_code := some status,
      site_id := site, html_content_hash := hash })
    (fun q => rfl) q h

theorem getPage_update_page_redirect_other (db : DB) (pid : Nat) (site : Nat) (j : Nat)
    (hj : j ≠ pid) :
    (update_page_redirect db pid site).getPage j = db.getPage j := by
  exact find?_map_cond_other db.pages pid j
    (fun q => { q with
      page_type_code := PageState.REDIRECT, http_status_code := some 301,
      site_id := some site })
    (fun q => rfl) hj

theorem getPage_update_page_redirect_self (db : DB) (pid : Nat) (site : Nat) (q : PageRow)
    (h : db.getPage pid = some q) :
    (update_page_redirect db pid site).getPage pid =
      some { q with
        page_type_code := PageState.REDIRECT, http_status_code := some 301,
        site_id := some site } := by
  exact find?_map_cond_self db.pages pid
    (fun q => { q with
      page_type_code := PageState.REDIRECT, http_status_code := some 301,
      site_id := some site })
    (fun q => rfl) q h

theorem getPage_mark_failed_self (db : DB) (pid : Nat) (site : Nat) (q : PageRow)
    (h : db.getPage pid = some q) :
    (mark_page_as_failed db pid (some site)).getPage pid =
      some { q with page_type_code := PageState.FAILED, site_id := some site } := by
  exact find?_map_cond_self db.pages pid
    (fun q => { q with page_type_code := PageState.FAILED, site_id := some site })
    (fun q => rfl) q h

theorem getPage_add_to_frontier (db : DB) (link : String) (j : Nat) (p : PageRow)
    (h : db.getPage j = some p) :
    ((add_to_frontier db link).2).getPage j = some p := by
  unfold add_to_frontier
  split
  · exact h
  · unfold DB.getPage at *
    simp only []
    rw [List.find?_append, h]
    rfl

theorem links_add_to_frontier (db : DB) (link : String) :
    ((add_to_frontier db link).2).links = db.links := by
  unfold add_to_frontier
  split <;> rfl

theorem nextPageId_add_to_frontier (db : DB) (link : String) :
    db.nextPageId ≤ ((add_to_frontier db link).2).nextPageId := by
  unfold add_to_frontier
  split
  · exact Nat.le_refl _
  · exact Nat.le_succ _

theorem pages_add_page_link (db : DB) (t f : Nat) :
    (add_page_link db t f).pages = db.pages := by
  unfold add_page_link
  split <;> rfl

theorem nextPageId_add_page_link (db : DB) (t f : Nat) :
    (add_page_link db t f).nextPageId = db.nextPageId := by
  unfold add_page_link
  split <;> rfl

theorem getPage_add_page_link (db : DB) (t f j : Nat) :
    (add_page_link db t f).getPage j = db.getPage j := by
  unfold DB.getPage
  rw [pages_add_page_link]

theorem getPage_pushStep (pid : Nat) (d : DB) (link : String) (j : Nat) (p : PageRow)
    (h : d.getPage j = some p) :
    (pushStep pid d link).getPage j = some p := by
  have h2 := getPage_add_to_frontier d link j p h
  unfold pushStep
  cases hres : add_to_frontier d link with
  | mk o d1 =>
      rw [hres] at h2
      cases o with
      | some lid =>
          rw [getPage_add_page_link]
          exact h2
      | none => exact h2

theorem getPage_push_links (d : DB) (pid : Nat) (links : List String) :
    ∀ (j : Nat) (p : PageRow), d.getPage j = some p →
      (push_links d pid links).getPage j = some p := by
  induction links generalizing d with
  | nil =>
      intro j p h
      exact h
  | cons l rest ih =>
      intro j p h
      exact ih (pushStep pid d l) j p (getPage_pushStep pid d l j p h)

theorem nextPageId_pushStep (pid : Nat) (d : DB) (link : String) :
    d.nextPageId ≤ (pushStep pid d link).nextPageId := by
  unfold pushStep
  cases hres : add_to_frontier d link with
  | mk o d1 =>
      have hle : d.nextPageId ≤ d1.nextPageId := by
        have := nextPageId_add_to_frontier d link
        rw [hres] at this
        exact this
      cases o with
      | some lid =>
          rw [nextPageId_add_page_link]
          exact hle
      | none => exact hle

theorem nextPageId_push_links (d : DB) (pid : Nat) (links : List String) :
    d.nextPageId ≤ (push_links d pid links).nextPageId := by
  induction links generalizing d with
  | nil => exact Nat.le_refl _
  | cons l rest ih =>
      exact Nat.le_trans (nextPageId_pushStep pid d l) (ih (pushStep pid d l))

/-- The number of copies of the edge `a -> b` stored in the link table. -/
def edgeCount (db : DB) (a b : Nat) : Nat :=
  db.links.countP (fun l => l.from_page == a && l.to_page == b)

theorem any_edge_iff (db : DB) (a b : Nat) :
    db.links.any (fun l => l.from_page == a && l.to_page == b) = true ↔
      (⟨a, b⟩ : LinkRow) ∈ db.links := by
  rw [List.any_eq_true]
  constructor
  · rintro ⟨l, hl, hp⟩
    cases l with
    | mk lf lt =>
        simp only [Bool.and_eq_true, beq_iff_eq] at hp
        rw [hp.1, hp.2] at hl
        exact hl
  · intro h
    exact ⟨⟨a, b⟩, h, by simp⟩

theorem edgeCount_add_page_link_self (db : DB) (a b : Nat)
    (h : (⟨a, b⟩ : LinkRow) ∉ db.links) :
    edgeCount (add_page_link db b a) a b = edgeCount db a b + 1 := by
  unfold add_page_link edgeCount
  rw [if_neg (by
    intro hc
    exact h ((any_edge_iff db a b).mp hc))]
  rw [List.countP_append]
  simp

theorem edgeCount_zero_of_not_mem (db : DB) (a b : Nat)
    (h : (⟨a, b⟩ : LinkRow) ∉ db.links) :
    edgeCount db a b = 0 := by
  unfold edgeCount
  rw [List.countP_eq_zero]
  intro l hl hp
  cases l with
  | mk lf lt =>
      simp only [Bool.and_eq_true, beq_iff_eq] at hp
      rw [hp.1, hp.2] at hl
      exact h hl

theorem links_update_page (db : DB) (pid : Nat) (status : Nat) (site : Option Nat)
    (html hash : Option String) (ptc : PageState) :
    (update_page db pid status site html hash ptc).links = db.links := rfl

theorem links_update_page_redirect (db : DB) (pid site : Nat) :
    (update_page_redirect db pid site).links = db.links := rfl

theorem links_mark_failed (db : DB) (pid : Nat) (site : Option Nat) :
    (mark_page_as_failed db pid site).links = db.links := rfl

theorem add_to_frontier_some_id (db : DB) (link : String) (lid : Nat) (d1 : DB)
    (h : add_to_frontier db link = (some lid, d1)) :
    lid = db.nextPageId ∧ d1.links = db.links ∧ d1.nextPageId = db.nextPageId + 1 := by
  unfold add_to_frontier at h
  split at h
  · cases h
  · cases h
    exact ⟨rfl, rfl, rfl⟩

theorem mem_links_add_page_link (db : DB) (t f : Nat) (e : LinkRow)
    (h : e ∈ (add_page_link db t f).links) : e ∈ db.links ∨ e = ⟨f, t⟩ := by
  unfold add_page_link at h
  split at h
  · exact Or.inl h
  · rcases List.mem_append.mp h with h' | h'
    · exact Or.inl h'
    · exact Or.inr (List.mem_singleton.mp h')

theorem add_page_link_mem_self (db : DB) (t f : Nat) :
    (⟨f, t⟩ : LinkRow) ∈ (add_page_link db t f).links := by
  unfold add_page_link
  split
  · rename_i h
    exact (any_edge_iff db f t).mp h
  · exact List.mem_append.mpr (Or.inr (List.mem_singleton.mpr rfl))

theorem links_mono_add_page_link (db : DB) (t f : Nat) (e : LinkRow)
    (h : e ∈ db.links) : e ∈ (add_page_link db t f).links := by
  unfold add_page_link
  split
  · exact h
  · exact List.mem_append.mpr (Or.inl h)

theorem links_mono_pushStep (pid : Nat) (d : DB) (link : String) (e : LinkRow)
    (h : e ∈ d.links) : e ∈ (pushStep pid d link).links := by
  have h2 : e ∈ ((add_to_frontier d link).2).links := by
    rw [links_add_to_frontier]
    exact h
  unfold pushStep
  cases hres : add_to_frontier d link with
  | mk o d1 =>
      rw [hres] at h2
      cases o with
      | some lid => exact links_mono_add_page_link d1 lid pid e h2
      | none => exact h2

theorem links_mono_push_links (d : DB) (pid : Nat) (links : List String) (e : LinkRow)
    (h : e ∈ d.links) : e ∈ (push_links d pid links).links := by
  induction links generalizing d with
  | nil => exact h
  | cons l rest ih => exact ih (pushStep pid d l) (links_mono_pushStep pid d l e h)

theorem mem_links_pushStep (pid : Nat) (d : DB) (link : String) (e : LinkRow)
    (h : e ∈ (pushStep pid d link).links) : e ∈ d.links ∨ e.from_page = pid := by
  unfold pushStep at h
  cases hres : add_to_frontier d link with
  | mk o d1 =>
      rw [hres] at h
      have hl : d1.links = d.links := by
        have := links_add_to_frontier d link
        rw [hres] at this
        exact this
      cases o with
      | some lid =>
          rcases mem_links_add_page_link d1 lid pid e h with h' | h'
          · rw [hl] at h'
            exact Or.inl h'
          · rw [h']
            exact Or.inr rfl
      | none =>
          rw [hl] at h
          exact Or.inl h

theorem mem_links_push_links (d : DB) (pid : Nat) (links : List String) (e : LinkRow) :
    e ∈ (push_links d pid links).links → e ∈ d.links ∨ e.from_page = pid := by
  induction links generalizing d with
  | nil =>
      intro h
      exact Or.inl h
  | cons l rest ih =>
      intro h
      rcases ih (pushStep pid d l) h with h' | h'
      · rcases mem_links_pushStep pid d l e h' with h'' | h''
        · exact Or.inl h''
        · exact Or.inr h''
      · exact Or.inr h'

theorem edgeCount_eq_of_links (d1 d2 : DB) (h : d1.links = d2.links) (a b : Nat) :
    edgeCount d1 a b = edgeCount d2 a b := by
  unfold edgeCount
  rw [h]

theorem edgeCount_add_page_link_other (d1 : DB) (t f a b : Nat)
    (hne : ¬(f = a ∧ t = b)) :
    edgeCount (add_page_link d1 t f) a b = edgeCount d1 a b := by
  unfold add_page_link
  split
  · rfl
  · show edgeCount { d1 with links := d1.links ++ [(⟨f, t⟩ : LinkRow)] } a b = edgeCount d1 a b
    unfold edgeCount
    rw [show ({ d1 with links := d1.links ++ [(⟨f, t⟩ : LinkRow)] } : DB).links =
        d1.links ++ [(⟨f, t⟩ : LinkRow)] from rfl]
    rw [List.countP_append]
    have hp : (fun l : LinkRow => l.from_page == a && l.to_page == b) ⟨f, t⟩ = false := by
      by_cases h1 : f = a
      · have h2 : t ≠ b := fun h2 => hne ⟨h1, h2⟩
        simp [h2]
      · simp [h1]
    simp [hp]

theorem edgeCount_pushStep (pid : Nat) (d : DB) (link : String) (a b : Nat)
    (hb : b < d.nextPageId) :
    edgeCount (pushStep pid d link) a b = edgeCount d a b := by
  have hl := links_add_to_frontier d link
  unfold pushStep
  cases hres : add_to_frontier d link with
  | mk o d1 =>
      rw [hres] at hl
      cases o with
      | none => exact edgeCount_eq_of_links d1 d hl a b
      | some lid =>
          obtain ⟨hlid, _, _⟩ := add_to_frontier_some_id d link lid d1 hres
          rw [edgeCount_add_page_link_other d1 lid pid a b (by
            rintro ⟨h1, h2⟩
            rw [hlid] at h2
            omega)]
          exact edgeCount_eq_of_links d1 d hl a b

theorem edgeCount_push_links (d : DB) (pid : Nat) (links : List String) (a b : Nat)
    (hb : b < d.nextPageId) :
    edgeCount (push_links d pid links) a b = edgeCount d a b := by
  induction links generalizing d with
  | nil => rfl
  | cons l rest ih =>
      rw [show push_links d pid (l :: rest) = push_links (pushStep pid d l) pid rest from rfl]
      rw [ih (pushStep pid d l) (Nat.lt_of_lt_of_le hb (nextPageId_pushStep pid d l))]
      exact edgeCount_pushStep pid d l a b hb

theorem mem_pages_pushStep (pid : Nat) (d : DB) (link : String) (p : PageRow)
    (h : p ∈ (pushStep pid d link).pages) : p ∈ d.pages ∨ p.url = link := by
  unfold pushStep at h
  cases hres : add_to_frontier d link with
  | mk o d1 =>
      rw [hres] at h
      have hpg : p ∈ d1.pages → p ∈ d.pages ∨ p.url = link := by
        intro hp
        unfold add_to_frontier at hres
        split at hres
        · cases hres
          exact Or.inl hp
        · cases hres
          rcases List.mem_append.mp hp with h' | h'
          · exact Or.inl h'
          · rw [List.mem_singleton.mp h']
            exact Or.inr rfl
      cases o with
      | some lid =>
          rw [pages_add_page_link] at h
          exact hpg h
      | none => exact hpg h

theorem mem_pages_push_links (d : DB) (pid : Nat) (links : List String) (p : PageRow) :
    p ∈ (push_links d pid links).pages → p ∈ d.pages ∨ p.url ∈ links := by
  induction links generalizing d with
  | nil =>
      intro h
      exact Or.inl h
  | cons l rest ih =>
      intro h
      rcases ih (pushStep pid d l) h with h' | h'
      · rcases mem_pages_pushStep pid d l p h' with h'' | h''
        · exact Or.inl h''
        · exact Or.inr (h'' ▸ List.mem_cons_self l rest)
      · exact Or.inr (List.mem_cons_of_mem l h')

/-- The number of rows carrying the url `u`. -/
def urlCount (db : DB) (u : String) : Nat :=
  db.pages.countP (fun p => p.url == u)

theorem urlCount_update_page (db : DB) (pid : Nat) (status : Nat) (site : Option Nat)
    (html hash : Option String) (ptc : PageState) (u : String) :
    urlCount (update_page db pid status site html hash ptc) u = urlCount db u := by
  unfold urlCount update_page
  rw [List.countP_map]
  congr 1
  funext q
  by_cases h : q.id = pid <;> simp [h]

theorem urlCount_update_page_redirect (db : DB) (pid site : Nat) (u : String) :
    urlCount (update_page_redirect db pid site) u = urlCount db u := by
  unfold urlCount update_page_redirect
  rw [List.countP_map]
  congr 1
  funext q
  by_cases h : q.id = pid <;> simp [h]

theorem any_url_exists (db : DB) (u : String) :
    db.pages.any (fun p => p.url == u) = true ↔ ∃ p ∈ db.pages, p.url = u := by
  rw [List.any_eq_true]
  constructor
  · rintro ⟨p, hp, hu⟩
    exact ⟨p, hp, by simpa using hu⟩
  · rintro ⟨p, hp, hu⟩
    exact ⟨p, hp, by simpa using hu⟩

theorem urlCount_pushStep (pid : Nat) (d : DB) (link : String) (u : String)
    (hex : ∃ p ∈ d.pages, p.url = u) :
    urlCount (pushStep pid d link) u = urlCount d u ∧
      (∃ p ∈ (pushStep pid d link).pages, p.url = u) := by
  unfold pushStep
  cases hres : add_to_frontier d link with
  | mk o d1 =>
      have key : urlCount d1 u = urlCount d u ∧ (∃ p ∈ d1.pages, p.url = u) := by
        unfold add_to_frontier at hres
        split at hres
        · cases hres
          exact ⟨rfl, hex⟩
        · rename_i hany
          cases hres
          have hlink : link ≠ u := by
            intro he
            subst he
            exact hany ((any_url_exists d link).mpr hex)
          constructor
          · unfold urlCount
            rw [List.countP_append]
            simp [hlink]
          · obtain ⟨p, hp, hu⟩ := hex
            exact ⟨p, List.mem_append.mpr (Or.inl hp), hu⟩
      cases o with
      | some lid =>
          refine ⟨?_, ?_⟩
          · show urlCount (add_page_link d1 lid pid) u = _
            have : urlCount (add_page_link d1 lid pid) u = urlCount d1 u := by
              unfold urlCount
              rw [pages_add_page_link]
            rw [this]
            exact key.1
          · obtain ⟨p, hp, hu⟩ := key.2
            refine ⟨p, ?_, hu⟩
            rw [pages_add_page_link]
            exact hp
      | none => exact key

theorem urlCount_push_links (d : DB) (pid : Nat) (links : List String) (u : String)
    (hex : ∃ p ∈ d.pages, p.url = u) :
    urlCount (push_links d pid links) u = urlCount d u := by
  induction links generalizing d with
  | nil => rfl
  | cons l rest ih =>
      obtain ⟨h1, h2⟩ := urlCount_pushStep pid d l u hex
      rw [show push_links d pid (l :: rest) = push_links (pushStep pid d l) pid rest from rfl]
      rw [ih (pushStep pid d l) h2, h1]

theorem exists_of_urlCount_pos (db : DB) (u : String) (h : 0 < urlCount db u) :
    ∃ p ∈ db.pages, p.url = u := by
  unfold urlCount at h
  obtain ⟨p, hp, hpred⟩ := List.countP_pos_iff.mp h
  exact ⟨p, hp, by simpa using hpred⟩

theorem getPage_create_new_page (db : DB) (u : String) (s : Nat) (ptc : PageState)
    (j : Nat) (p : PageRow) (h : db.getPage j = some p) :
    ((create_new_page db u s ptc).2).getPage j = some p := by
  unfold create_new_page
  cases hf : db.pages.find? (fun q => q.url == u) with
  | some q => exact h
  | none =>
      unfold DB.getPage at h ⊢
      show (db.pages ++ [(⟨db.nextPageId, u, ptc, some s, none, none, none⟩ : PageRow)]).find?
          (fun p => p.id == j) = some p
      rw [List.find?_append, h]
      rfl

theorem urlCount_create_new_page_fresh (db : DB) (u : String) (s : Nat) (ptc : PageState)
    (hfresh : db.pages.find? (fun q => q.url == u) = none) :
    urlCount ((create_new_page db u s ptc).2) u = urlCount db u + 1 := by
  simp only [create_new_page, hfresh]
  unfold urlCount
  show (db.pages ++ [(⟨db.nextPageId, u, ptc, some s, none, none, none⟩ : PageRow)]).countP
      (fun p => p.url == u) = _
  rw [List.countP_append]
  simp

theorem links_create_new_page (db : DB) (u : String) (s : Nat) (ptc : PageState) :
    ((create_new_page db u s ptc).2).links = db.links := by
  unfold create_new_page
  cases hf : db.pages.find? (fun q => q.url == u) <;> rfl

theorem urlCount_add_page_link (db : DB) (t f : Nat) (u : String) :
    urlCount (add_page_link db t f) u = urlCount db u := by
  unfold urlCount
  rw [pages_add_page_link]

theorem urlCount_mark_failed (db : DB) (pid : Nat) (site : Option Nat) (u : String) :
    urlCount (mark_page_as_failed db pid site) u = urlCount db u := by
  unfold urlCount mark_page_as_failed
  rw [List.countP_map]
  congr 1
  funext q
  by_cases h : q.id = pid
  · cases site <;> simp [h]
  · simp [h]

theorem mem_pages_update_page (db : DB) (pid : Nat) (status : Nat) (site : Option Nat)
    (html hash : Option String) (ptc : PageState) (p : PageRow)
    (h : p ∈ (update_page db pid status site html hash ptc).pages) :
    ∃ q ∈ db.pages, q.id = p.id := by
  obtain ⟨q, hq, he⟩ := List.mem_map.mp h
  refine ⟨q, hq, ?_⟩
  rw [← he]
  by_cases hid : q.id = pid <;> simp [hid]

theorem mem_pages_mark_failed (db : DB) (pid : Nat) (site : Option Nat) (p : PageRow)
    (h : p ∈ (mark_page_as_failed db pid site).pages) :
    ∃ q ∈ db.pages, q.id = p.id := by
  obtain ⟨q, hq, he⟩ := List.mem_map.mp h
  refine ⟨q, hq, ?_⟩
  rw [← he]
  by_cases hid : q.id = pid
  · cases site <;> simp [hid]
  · simp [hid]

theorem html_step_duplicate (env : CrawlEnv) (db : DB) (pid : Nat) (cu html : String)
    (status sid : Nat) (opid : Nat) (osid : Option Nat)
    (hcol : check_pages_hash_collision db (env.hashOf html) = some (opid, osid)) :
    html_step env db pid cu html status sid =
      ([], add_page_link (update_page db pid status osid none none PageState.DUPLICATE)
        opid pid) := by
  simp only [html_step, hcol]

theorem getPage_html_step_other (env : CrawlEnv) (db : DB) (pid : Nat) (cu html : String)
    (status sid : Nat) (j : Nat) (p : PageRow) (hj : j ≠ pid)
    (h : db.getPage j = some p) :
    ((html_step env db pid cu html status sid).2).getPage j = some p := by
  simp only [html_step]
  cases hc : check_pages_hash_collision db (env.hashOf html) with
  | some pr =>
      obtain ⟨opid, osid⟩ := pr
      show ((add_page_link (update_page db pid status osid none none PageState.DUPLICATE)
          opid pid)).getPage j = some p
      rw [getPage_add_page_link, getPage_update_page_other db pid status osid none none
        PageState.DUPLICATE j hj]
      exact h
  | none =>
      show ((update_page db pid status (some sid) (some html)
          (some (env.hashOf html)) PageState.HTML)).getPage j = some p
      rw [getPage_update_page_other db pid status (some sid) (some html)
        (some (env.hashOf html)) PageState.HTML j hj]
      exact h

theorem getPage_binary_step_other (db : DB) (pid status sid : Nat) (dt : Option String)
    (j : Nat) (p : PageRow) (hj : j ≠ pid) (h : db.getPage j = some p) :
    (binary_step db pid status sid dt).getPage j = some p := by
  unfold binary_step
  cases dt with
  | some d =>
      rw [getPage_update_page_other db pid status (some sid) none none
        PageState.BINARY j hj]
      exact h
  | none => exact h

theorem urlCount_html_step (env : CrawlEnv) (db : DB) (pid : Nat) (cu html : String)
    (status sid : Nat) (u : String) :
    urlCount ((html_step env db pid cu html status sid).2) u = urlCount db u := by
  simp only [html_step]
  cases hc : check_pages_hash_collision db (env.hashOf html) with
  | some pr =>
      obtain ⟨opid, osid⟩ := pr
      show urlCount (add_page_link (update_page db pid status osid none none
        PageState.DUPLICATE) opid pid) u = urlCount db u
      rw [urlCount_add_page_link, urlCount_update_page]
  | none =>
      show urlCount (update_page db pid status (some sid) (some html)
        (some (env.hashOf html)) PageState.HTML) u = urlCount db u
      rw [urlCount_update_page]

theorem urlCount_binary_step (db : DB) (pid status sid : Nat) (dt : Option String)
    (u : String) :
    urlCount (binary_step db pid status sid dt) u = urlCount db u := by
  unfold binary_step
  cases dt with
  | some d => rw [urlCount_update_page]
  | none => rfl

theorem links_html_step (env : CrawlEnv) (db : DB) (pid : Nat) (cu html : String)
    (status sid : Nat) (e : LinkRow) (h : e ∈ db.links) :
    e ∈ ((html_step env db pid cu html status sid).2).links := by
  simp only [html_step]
  cases hc : check_pages_hash_collision db (env.hashOf html) with
  | some pr =>
      obtain ⟨opid, osid⟩ := pr
      show e ∈ (add_page_link (update_page db pid status osid none none
        PageState.DUPLICATE) opid pid).links
      apply links_mono_add_page_link
      rw [links_update_page]
      exact h
  | none =>
      show e ∈ (update_page db pid status (some sid) (some html)
        (some (env.hashOf html)) PageState.HTML).links
      rw [links_update_page]
      exact h

theorem links_binary_step (db : DB) (pid status sid : Nat) (dt : Option String)
    (e : LinkRow) (h : e ∈ db.links) :
    e ∈ (binary_step db pid status sid dt).links := by
  unfold binary_step
  cases dt with
  | some d =>
      rw [links_update_page]
      exact h
  | none => exact h

theorem nextPageId_html_step (env : CrawlEnv) (db : DB) (pid : Nat) (cu html : String)
    (status sid : Nat) :
    ((html_step env db pid cu html status sid).2).nextPageId = db.nextPageId := by
  simp only [html_step]
  cases hc : check_pages_hash_collision db (env.hashOf html) with
  | some pr =>
      obtain ⟨opid, osid⟩ := pr
      show (add_page_link (update_page db pid status osid none none
        PageState.DUPLICATE) opid pid).nextPageId = db.nextPageId
      rw [nextPageId_add_page_link]
      rfl
  | none => rfl

theorem getPage_after_redirect_other (env : CrawlEnv) (db2 : DB) (pid : Nat)
    (cu : String) (sid : Nat) (sm : List String) (r : FetchOk) (j : Nat) (p : PageRow)
    (hj : j ≠ pid) (h : db2.getPage j = some p) :
    (after_redirect env db2 pid cu sid sm r).getPage j = some p := by
  unfold after_redirect
  cases hh : r.html with
  | some html =>
      apply getPage_push_links
      exact getPage_html_step_other env db2 pid cu html r.status sid j p hj h
  | none =>
      apply getPage_push_links
      exact getPage_binary_step_other db2 pid r.status sid r.data_type j p hj h

theorem links_after_redirect (env : CrawlEnv) (db2 : DB) (pid : Nat) (cu : String)
    (sid : Nat) (sm : List String) (r : FetchOk) (e : LinkRow) (h : e ∈ db2.links) :
    e ∈ (after_redirect env db2 pid cu sid sm r).links := by
  unfold after_redirect
  cases hh : r.html with
  | some html =>
      apply links_mono_push_links
      exact links_html_step env db2 pid cu html r.status sid e h
  | none =>
      apply links_mono_push_links
      exact links_binary_step db2 pid r.status sid r.data_type e h

theorem urlCount_after_redirect (env : CrawlEnv) (db2 : DB) (pid : Nat) (cu : String)
    (sid : Nat) (sm : List String) (r : FetchOk) (u : String)
    (hpos : 0 < urlCount db2 u) :
    urlCount (after_redirect env db2 pid cu sid sm r) u = urlCount db2 u := by
  unfold after_redirect
  cases hh : r.html with
  | some html =>
      have h1 := urlCount_html_step env db2 pid cu html r.status sid u
      rw [urlCount_push_links _ _ _ _ (exists_of_urlCount_pos _ u (by rw [h1]; exact hpos))]
      exact h1
  | none =>
      have h1 := urlCount_binary_step db2 pid r.status sid r.data_type u
      rw [urlCount_push_links _ _ _ _ (exists_of_urlCount_pos _ u (by rw [h1]; exact hpos))]
      exact h1

theorem redirect_step_id (db0 : DB) (page_id : Nat) (cu : String) (sid : Nat) :
    redirect_step db0 page_id cu cu sid = (page_id, db0) := by
  unfold redirect_step
  rw [if_neg (by simp)]

theorem crawl_url_fail_eq (env : CrawlEnv) (db : DB) (page_id : Nat) (start_url : String)
    (ip : String) (sid : Nat) (sm : List String) (db0 : DB)
    (hip : env.ipOf (env.netlocOf (env.fixShort start_url)) = some ip)
    (hsite : site_step env db (env.fixShort start_url) = (sid, sm, db0))
    (hfail : get_page (env.pageEnvOf (env.fixShort start_url)) = Except.ok none ∨
             get_page (env.pageEnvOf (env.fixShort start_url)) = Except.error ()) :
    crawl_url env db page_id start_url =
      push_links (mark_page_as_failed db0 page_id (some sid)) page_id sm := by
  rcases hfail with h | h <;> simp only [crawl_url, hip, h, hsite]

theorem crawl_url_ok_eq (env : CrawlEnv) (db : DB) (page_id : Nat) (start_url : String)
    (ip : String) (sid : Nat) (sm : List String) (db0 : DB) (r : FetchOk)
    (hip : env.ipOf (env.netlocOf (env.fixShort start_url)) = some ip)
    (hsite : site_step env db (env.fixShort start_url) = (sid, sm, db0))
    (hfetch : get_page (env.pageEnvOf (env.fixShort start_url)) = Except.ok (some r)) :
    crawl_url env db page_id start_url =
      after_redirect env
        (redirect_step db0 page_id (env.fixShort start_url) (canonicalizeStr r.url) sid).2
        (redirect_step db0 page_id (env.fixShort start_url) (canonicalizeStr r.url) sid).1
        (env.fixShort start_url) sid sm r := by
  simp only [crawl_url, hip, hfetch, hsite]

theorem redirect_step_fresh_parts (db0 : DB) (page_id : Nat) (cu pu : String) (sid : Nat)
    (hne : cu ≠ pu) (hfresh : ∀ p ∈ db0.pages, p.url ≠ pu) :
    (redirect_step db0 page_id cu pu sid).1 = db0.nextPageId ∧
    ((redirect_step db0 page_id cu pu sid).2).nextPageId = db0.nextPageId + 1 ∧
    (⟨page_id, db0.nextPageId⟩ : LinkRow) ∈ ((redirect_step db0 page_id cu pu sid).2).links ∧
    urlCount ((redirect_step db0 page_id cu pu sid).2) pu = urlCount db0 pu + 1 ∧
    (∀ cur : PageRow, db0.getPage page_id = some cur →
      ((redirect_step db0 page_id cu pu sid).2).getPage page_id =
        some { cur with
          page_type_code := PageState.REDIRECT, http_status_code := some 301,
          site_id := some sid }) := by
  have hfind : (update_page_redirect db0 page_id sid).pages.find?
      (fun p => p.url == pu) = none := by
    rw [List.find?_eq_none]
    intro x hx
    obtain ⟨q, hq, he⟩ := List.mem_map.mp hx
    have hxu : x.url = q.url := by
      rw [← he]
      by_cases hid : q.id = page_id <;> simp [hid]
    simp only [hxu]
    simp [hfresh q hq]
  have hcond : (cu != pu) = true := bne_iff_ne.mpr hne
  have hcre : create_new_page (update_page_redirect db0 page_id sid) pu sid
      PageState.FRONTIER =
      ((update_page_redirect db0 page_id sid).nextPageId,
        { update_page_redirect db0 page_id sid with
            pages := (update_page_redirect db0 page_id sid).pages ++
              [⟨(update_page_redirect db0 page_id sid).nextPageId, pu,
                PageState.FRONTIER, some sid, none, none, none⟩],
            nextPageId := (update_page_redirect db0 page_id sid).nextPageId + 1 }) := by
    simp only [create_new_page, hfind]
  have hred : redirect_step db0 page_id cu pu sid =
      ((create_new_page (update_page_redirect db0 page_id sid) pu sid PageState.FRONTIER).1,
        add_page_link
          (create_new_page (update_page_redirect db0 page_id sid) pu sid PageState.FRONTIER).2
          (create_new_page (update_page_redirect db0 page_id sid) pu sid PageState.FRONTIER).1
          page_id) := by
    unfold redirect_step
    rw [if_pos hcond]
  have hnext0 : (update_page_redirect db0 page_id sid).nextPageId = db0.nextPageId := rfl
  refine ⟨?_, ?_, ?_, ?_, ?_⟩
  · rw [hred, hcre]
    rfl
  · rw [hred]
    show (add_page_link _ _ page_id).nextPageId = db0.nextPageId + 1
    rw [nextPageId_add_page_link, hcre]
    rfl
  · rw [hred]
    have := add_page_link_mem_self
      (create_new_page (update_page_redirect db0 page_id sid) pu sid PageState.FRONTIER).2
      (create_new_page (update_page_redirect db0 page_id sid) pu sid PageState.FRONTIER).1
      page_id
    rw [hcre] at this ⊢
    exact this
  · rw [hred]
    show urlCount (add_page_link _ _ page_id) pu = _
    rw [urlCount_add_page_link]
    rw [show urlCount (create_new_page (update_page_redirect db0 page_id sid) pu sid
        PageState.FRONTIER).2 pu =
      urlCount (update_page_redirect db0 page_id sid) pu + 1 from
      urlCount_create_new_page_fresh _ pu sid PageState.FRONTIER hfind]
    rw [urlCount_update_page_redirect]
  · intro cur hcur
    rw [hred]
    show (add_page_link _ _ page_id).getPage page_id = _
    rw [getPage_add_page_link]
    apply getPage_create_new_page
    exact getPage_update_page_redirect_self db0 page_id sid cur hcur

theorem pop_frontier_none_stable (db dbp : DB) (h : pop_frontier db = (none, dbp)) :
    (pop_frontier dbp).1 = none := by
  unfold pop_frontier at *
  cases hf : db.pages.find? (fun p => p.page_type_code == PageState.FRONTIER) with
  | some p =>
      rw [hf] at h
      simp at h
  | none =>
      rw [hf] at h
      cases h
      rw [hf]

theorem start_spider_terminates (env : CrawlEnv) :
    ∀ (fuel : Nat) (db db' : DB), start_spider env fuel db = some db' →
      (pop_frontier db').1 = none := by
  intro fuel
  induction fuel with
  | zero =>
      intro db db' h
      cases h
  | succ n ih =>
      intro db db' h
      unfold start_spider at h
      cases hp : pop_frontier db with
      | mk o dbp =>
          rw [hp] at h
          cases o with
          | none =>
              injection h with h2
              exact h2 ▸ pop_frontier_none_stable db dbp hp
          | some pr => exact ih _ _ h

/-! ## Claim theorems -/

/-- C1: under concurrent callers, no two calls of `pop_frontier` ever return
the same page id: in every interleaving of two lock-granular `pop_frontier`
transactions started from a well-formed state, when both callers have
returned a page, the two page ids differ, and each caller's row was
transitioned to `CRAWLING`. -/
theorem C1_pop_frontier_mutual_exclusion
    (s0 s : PopSystem)
    (hinit_pages : (s0.pages.map (fun p => p.id)).Nodup)
    (hinit_lock : ∀ i, s0.lockOwner i = none)
    (hinit_worker : ∀ w, s0.worker w = WorkerPC.start)
    (hreach : Relation.ReflTransGen PopStep s0 s)
    (i j : Nat) (u v : String)
    (h0 : s.worker 0 = WorkerPC.done (some (i, u)))
    (h1 : s.worker 1 = WorkerPC.done (some (j, v))) :
    i ≠ j ∧ rowState s.pages i = some PageState.CRAWLING ∧
      rowState s.pages j = some PageState.CRAWLING := by
  have hinv0 : PopInv s0 := by
    refine ⟨hinit_pages, ?_, ?_, ?_, ?_⟩
    · intro w i' u' hw
      rw [hinit_worker w] at hw
      cases hw
    · intro w i' u' hw
      rw [hinit_worker w] at hw
      cases hw
    · intro w i' u' hw
      rw [hinit_worker w] at hw
      cases hw
    · intro w w' _ i' hc1 _
      rw [hinit_worker w] at hc1
      cases hc1
  have hinv := popInv_reach hreach hinv0
  refine ⟨?_, hinv.doneClaim 0 i u h0, hinv.doneClaim 1 j v h1⟩
  intro he
  exact hinv.distinct 0 1 (by decide) i (by rw [h0]; rfl) (by rw [h1, ← he]; rfl)

/-- The two seed frontier rows used to exercise the interleaving model. -/
def popDemoRow1 : PageRow :=
  ⟨1, "https://gov.si/", PageState.FRONTIER, none, none, none, none⟩

def popDemoRow2 : PageRow :=
  ⟨2, "https://evem.gov.si/", PageState.FRONTIER, none, none, none, none⟩

def popDemoSys : PopSystem :=
  ⟨[popDemoRow1, popDemoRow2], fun _ => none, fun _ => WorkerPC.start⟩

theorem C1_pop_frontier_mutual_exclusion_witness :
    (1 : Nat) ≠ 2 ∧
    rowState (setCrawling (setCrawling [popDemoRow1, popDemoRow2] 1) 2) 1 =
      some PageState.CRAWLING ∧
    rowState (setCrawling (setCrawling [popDemoRow1, popDemoRow2] 1) 2) 2 =
      some PageState.CRAWLING := by
  have hreach : ∃ s : PopSystem, Relation.ReflTransGen PopStep popDemoSys s ∧
      s.worker 0 = WorkerPC.done (some (1, "https://gov.si/")) ∧
      s.worker 1 = WorkerPC.done (some (2, "https://evem.gov.si/")) ∧
      s.pages = setCrawling (setCrawling [popDemoRow1, popDemoRow2] 1) 2 := by
    have hr := Relation.ReflTransGen.head (PopStep.selectRow popDemoSys 0 popDemoRow1 rfl rfl rfl)
      (Relation.ReflTransGen.head (PopStep.updateRow _ 0 _ _ rfl)
      (Relation.ReflTransGen.head (PopStep.commit _ 0 _ _ rfl)
      (Relation.ReflTransGen.head (PopStep.selectRow _ 1 popDemoRow2 rfl rfl rfl)
      (Relation.ReflTransGen.head (PopStep.updateRow _ 1 _ _ rfl)
      (Relation.ReflTransGen.single (PopStep.commit _ 1 _ _ rfl))))))
    exact ⟨_, hr, rfl, rfl, rfl⟩
  obtain ⟨s, hr, h0, h1, hpages⟩ := hreach
  have hmain := C1_pop_frontier_mutual_exclusion popDemoSys s (by decide)
    (fun _ => rfl) (fun _ => rfl) hr 1 2 "https://gov.si/" "https://evem.gov.si/" h0 h1
  refine ⟨hmain.1, ?_, ?_⟩
  · rw [← hpages]
    exact hmain.2.1
  · rw [← hpages]
    exact hmain.2.2

/-- C2: frontier push is idempotent at the URL-uniqueness boundary: pushing a
URL no page carries creates exactly one `FRONTIER` row and returns its id,
and pushing the same URL again creates no row and returns `none` instead of
failing. -/
theorem C2_add_to_frontier_idempotent (db : DB) (link : String)
    (hfresh : ∀ p ∈ db.pages, p.url ≠ link) :
    (add_to_frontier db link).1 = some db.nextPageId ∧
    (add_to_frontier db link).2.pages =
      db.pages ++ [⟨db.nextPageId, link, PageState.FRONTIER, none, none, none, none⟩] ∧
    ((add_to_frontier db link).2.pages.filter (fun p => p.url == link)).length = 1 ∧
    add_to_frontier (add_to_frontier db link).2 link =
      (none, (add_to_frontier db link).2) := by
  have hany : db.pages.any (fun p => p.url == link) = false := by
    simp only [List.any_eq_false]
    intro p hp
    simpa using hfresh p hp
  have hnil : db.pages.filter (fun p => p.url == link) = [] := by
    rw [List.filter_eq_nil_iff]
    intro p hp
    simpa using hfresh p hp
  have h1 : add_to_frontier db link =
      (some db.nextPageId,
        { db with
            pages := db.pages ++
              [⟨db.nextPageId, link, PageState.FRONTIER, none, none, none, none⟩],
            nextPageId := db.nextPageId + 1 }) := by
    unfold add_to_frontier
    rw [if_neg (by rw [hany]; exact Bool.false_ne_true)]
  refine ⟨by rw [h1], by rw [h1], ?_, ?_⟩
  · rw [h1]
    simp [List.filter_append, hnil]
  · rw [h1]
    unfold add_to_frontier
    rw [if_pos (by simp)]

theorem C2_add_to_frontier_idempotent_witness :
    (∀ p ∈ (⟨[], [], [], 5, 0⟩ : DB).pages, p.url ≠ "https://gov.si/") ∧
    (add_to_frontier ⟨[], [], [], 5, 0⟩ "https://gov.si/").1 = some 5 ∧
    add_to_frontier (add_to_frontier ⟨[], [], [], 5, 0⟩ "https://gov.si/").2
        "https://gov.si/" =
      (none, (add_to_frontier ⟨[], [], [], 5, 0⟩ "https://gov.si/").2) := by
  have h := C2_add_to_frontier_idempotent ⟨[], [], [], 5, 0⟩ "https://gov.si/"
    (by intro p hp; cases hp)
  exact ⟨(by simp), h.1, h.2.2.2⟩

/-- C5: canonicalization is idempotent, both on a single URL and at the level
of the URL-set interface of `util.canonicalize`. -/
theorem C5_canonicalize_idempotent (u : Url) :
    canonicalize1 (canonicalize1 u) = canonicalize1 u ∧
    canonicalize (canonicalize [u]) = canonicalize [u] := by
  refine ⟨canonicalize1_idem u, ?_⟩
  simp [canonicalize, List.insert, canonicalize1_idem]

/-- C7: a failed unique-constraint insert is recovered locally: creating a
page whose URL already exists returns the first existing page's id and leaves
the database unchanged, and saving a site whose normalized domain already
exists returns the first existing site's id and leaves the database
unchanged; both calls are total (nothing propagates to the caller). -/
theorem C7_unique_insert_recovers_existing (db : DB) (url : String) (sid : Nat)
    (ptc : PageState) (domain : String) (robots sitemap : Option String)
    (p : PageRow) (hpage : db.pages.find? (fun q => q.url == url) = some p)
    (s : SiteRow) (hsite : db.sites.find? (fun t => t.domain == removeWWW domain) = some s) :
    create_new_page db url sid ptc = (p.id, db) ∧
    save_site db domain robots sitemap = (s.id, db) := by
  constructor
  · unfold create_new_page
    rw [hpage]
  · unfold save_site
    rw [hsite]

def c7DemoPage : PageRow :=
  ⟨3, "https://gov.si/a/", PageState.HTML, some 1, none, none, some 200⟩

def c7DemoSite : SiteRow :=
  ⟨1, "gov.si", some "robots", none⟩

def c7DemoDB : DB :=
  ⟨[c7DemoPage], [c7DemoSite], [], 4, 2⟩

theorem C7_unique_insert_recovers_existing_witness :
    c7DemoDB.pages.find? (fun q => q.url == "https://gov.si/a/") = some c7DemoPage ∧
    c7DemoDB.sites.find? (fun t => t.domain == removeWWW "www.gov.si") = some c7DemoSite ∧
    create_new_page c7DemoDB "https://gov.si/a/" 1 PageState.FRONTIER = (3, c7DemoDB) ∧
    save_site c7DemoDB "www.gov.si" (some "robots2") none = (1, c7DemoDB) := by
  have h := C7_unique_insert_recovers_existing c7DemoDB "https://gov.si/a/" 1
    PageState.FRONTIER "www.gov.si" (some "robots2") none c7DemoPage (by decide)
    c7DemoSite (by decide)
  exact ⟨by decide, by decide, h.1, h.2⟩

/-- C10: `save_site` and `get_site` normalize the domain identically by
deleting every occurrence of the substring `www.` anywhere in the string (the
concrete non-leading occurrence below); hence `get_site` after `save_site`
finds the saved row, and two domain strings with the same normal form resolve
to the same site row. -/
theorem C10_domain_normalization (db : DB) (d1 d2 : String)
    (robots1 robots2 sitemap1 sitemap2 : Option String)
    (hnorm : removeWWW d1 = removeWWW d2) :
    (get_site (save_site db d1 robots1 sitemap1).2 d1).map (fun r => r.1) =
      some (save_site db d1 robots1 sitemap1).1 ∧
    save_site (save_site db d1 robots1 sitemap1).2 d2 robots2 sitemap2 =
      ((save_site db d1 robots1 sitemap1).1, (save_site db d1 robots1 sitemap1).2) ∧
    removeWWW "sub.www.example.com" = "sub.example.com" := by
  refine ?_
  cases hfind : db.sites.find? (fun s => s.domain == removeWWW d1) with
  | some s =>
      have hsave : save_site db d1 robots1 sitemap1 = (s.id, db) := by
        unfold save_site
        rw [hfind]
      have hfind2 : db.sites.find? (fun t => t.domain == removeWWW d2) = some s := by
        rw [← hnorm]
        exact hfind
      refine ⟨?_, ?_, by decide⟩
      · rw [hsave]
        simp [get_site, hfind]
      · rw [hsave]
        unfold save_site
        rw [hfind2]
  | none =>
      have hsave : save_site db d1 robots1 sitemap1 =
          (db.nextSiteId,
            { db with
                sites := db.sites ++ [⟨db.nextSiteId, removeWWW d1, robots1, sitemap1⟩],
                nextSiteId := db.nextSiteId + 1 }) := by
        unfold save_site
        rw [hfind]
      have hfindApp : ∀ d' : String, removeWWW d' = removeWWW d1 →
          (db.sites ++ [(⟨db.nextSiteId, removeWWW d1, robots1, sitemap1⟩ : SiteRow)]).find?
              (fun t => t.domain == removeWWW d') =
            some (⟨db.nextSiteId, removeWWW d1, robots1, sitemap1⟩ : SiteRow) := by
        intro d' hd'
        rw [List.find?_append]
        rw [hd', hfind]
        simp
      refine ⟨?_, ?_, by decide⟩
      · rw [hsave]
        simp [get_site, hfindApp d1 rfl]
      · rw [hsave]
        unfold save_site
        rw [hfindApp d2 hnorm.symm]

theorem mem_foldl_insert_image {β : Type} (f : β → String) (l : List β) :
    ∀ (acc : List String) (v : String),
      v ∈ l.foldl (fun a u => a.insert (f u)) acc → v ∈ acc ∨ ∃ u ∈ l, v = f u := by
  induction l with
  | nil =>
      intro acc v h
      exact Or.inl h
  | cons x xs ih =>
      intro acc v h
      simp only [List.foldl_cons] at h
      rcases ih (acc.insert (f x)) v h with h' | h'
      · rcases List.mem_insert_iff.mp h' with he | he
        · exact Or.inr ⟨x, List.mem_cons_self x xs, he⟩
        · exact Or.inl he
      · obtain ⟨u, hu, he⟩ := h'
        exact Or.inr ⟨u, List.mem_cons_of_mem _ hu, he⟩

theorem mem_canonicalizeStrList (l : List String) (v : String)
    (h : v ∈ canonicalizeStrList l) : ∃ u ∈ l, v = canonicalizeStr u := by
  rcases mem_foldl_insert_image canonicalizeStr l [] v h with h' | h'
  · cases h'
  · exact h'

theorem mem_rawCandidates (env : LinkEnv) (bs bn : String) (els : List Element) :
    ∀ (acc : List String) (fu : String), fu ∈ els.foldl (candStep env bs bn) acc →
      fu ∈ acc ∨ (env.allowed fu = true ∧ env.domainAllowed fu = true ∧
        ∃ e ∈ els, ∃ u, candidateOf env e = some u ∧ fu = fill_url env bs bn u) := by
  induction els with
  | nil =>
      intro acc fu h
      exact Or.inl h
  | cons e rest ih =>
      intro acc fu h
      simp only [List.foldl_cons] at h
      rcases ih (candStep env bs bn acc e) fu h with h' | h'
      · cases hc : candidateOf env e with
        | none =>
            simp only [candStep, hc] at h'
            exact Or.inl h'
        | some u =>
            simp only [candStep, hc] at h'
            by_cases hall : (env.allowed (fill_url env bs bn u) &&
                env.domainAllowed (fill_url env bs bn u)) = true
            · rw [if_pos hall] at h'
              rcases List.mem_insert_iff.mp h' with he | he
              · subst he
                rw [Bool.and_eq_true] at hall
                exact Or.inr ⟨hall.1, hall.2, e, List.mem_cons_self e rest, u, hc, rfl⟩
              · exact Or.inl he
            · rw [if_neg hall] at h'
              exact Or.inl h'
      · obtain ⟨ha, hd, e', he', u, hcand, hfill⟩ := h'
        exact Or.inr ⟨ha, hd, e', List.mem_cons_of_mem _ he', u, hcand, hfill⟩

/-- An environment in which `https://a.si/x` is robots-allowed while its
canonical form `https://a.si/x/` is robots-disallowed (a robots file may
distinguish the two paths). -/
def c6Env : LinkEnv :=
  ⟨fun _ => true, fun _ => true, fun _ => none, fun _ => none,
   fun s => !(s == "https://a.si/x/"), fun _ => true⟩

def c6Els : List Element :=
  [⟨some "https://a.si/x", none⟩, ⟨some "https://a.si/x/", none⟩]

/-- C6 counterexample: the URL `https://a.si/x/` is discovered via a DOM link
(it is the candidate of the second element), `is_url_allowed` is false for
it, and yet it is a member of the set `find_links` returns, because
`find_links` checks robots before canonicalization and the allowed URL
`https://a.si/x` canonicalizes onto the disallowed one.  So a disallowed
discovered URL is not always excluded from the returned set. -/
theorem C6_link_filtering_counterexample :
    candidateOf c6Env ⟨some "https://a.si/x/", none⟩ = some "https://a.si/x/" ∧
    fill_url c6Env "https" "a.si" "https://a.si/x/" = "https://a.si/x/" ∧
    c6Env.allowed "https://a.si/x/" = false ∧
    "https://a.si/x/" ∈ find_links c6Env c6Els "https" "a.si" := by decide

/-- C6 (amended): every URL `find_links` returns is the canonical form of
some discovered candidate that passed the robots and domain-allow checks
(so a disallowed or off-domain discovered URL contributes nothing; it can
appear only as the canonical image of an allowed one), and every URL
`find_sitemap_links` returns passes both checks itself. -/
theorem C6_link_filtering_amended (env : LinkEnv) (els : List Element)
    (bs bn : String) (world : String → Option (List String)) (fuel : Nat)
    (decl : Option (List String)) :
    (∀ v ∈ find_links env els bs bn,
      ∃ fu, env.allowed fu = true ∧ env.domainAllowed fu = true ∧
        v = canonicalizeStr fu ∧
        ∃ e ∈ els, ∃ u, candidateOf env e = some u ∧ fu = fill_url env bs bn u) ∧
    (∀ l, find_sitemap_links env world fuel decl bs bn = some l →
      ∀ v ∈ l, env.allowed v = true ∧ env.domainAllowed v = true) := by
  constructor
  · intro v hv
    obtain ⟨fu, hfu, he⟩ := mem_canonicalizeStrList _ v hv
    rcases mem_rawCandidates env bs bn els [] fu hfu with h | h
    · cases h
    · exact ⟨fu, h.1, h.2.1, he, h.2.2⟩
  · intro l hl v hv
    simp only [find_sitemap_links] at hl
    split at hl
    · cases hl
    · cases hl
      have hmem := List.mem_filter.mp hv
      have hb := hmem.2
      rw [Bool.and_eq_true] at hb
      exact hb

def c6AllEnv : LinkEnv :=
  ⟨fun _ => true, fun _ => true, fun _ => none, fun _ => none,
   fun _ => true, fun _ => true⟩

theorem C6_link_filtering_amended_witness :
    "https://a.si/x/" ∈ find_links c6AllEnv [⟨some "https://a.si/x", none⟩] "https" "a.si" ∧
    (∃ fu, c6AllEnv.allowed fu = true ∧ c6AllEnv.domainAllowed fu = true ∧
      "https://a.si/x/" = canonicalizeStr fu ∧
      ∃ e ∈ [(⟨some "https://a.si/x", none⟩ : Element)], ∃ u,
        candidateOf c6AllEnv e = some u ∧ fu = fill_url c6AllEnv "https" "a.si" u) :=
  ⟨by decide,
    (C6_link_filtering_amended c6AllEnv [⟨some "https://a.si/x", none⟩] "https" "a.si"
      (fun _ => none) 0 none).1 "https://a.si/x/" (by decide)⟩

theorem walkLocs_cons (child : String → Option (List String))
    (st : Option (List String)) (loc : String) (rest : List String) :
    walkLocs child st (loc :: rest) = walkLocs child (locStep child st loc) rest := rfl

theorem walkLocs_bot (child : String → Option (List String)) (locs : List String) :
    walkLocs child none locs = none := by
  induction locs with
  | nil => rfl
  | cons loc rest ih => exact ih

theorem mem_foldl_insert_left (l : List String) :
    ∀ (s : List String) (x : String), x ∈ s →
      x ∈ l.foldl (fun t y => t.insert y) s := by
  induction l with
  | nil =>
      intro s x hx
      exact hx
  | cons y ys ih =>
      intro s x hx
      exact ih _ x (List.mem_insert_iff.mpr (Or.inr hx))

theorem mem_foldl_insert_right (l : List String) :
    ∀ (s : List String) (x : String), x ∈ l →
      x ∈ l.foldl (fun t y => t.insert y) s := by
  induction l with
  | nil =>
      intro s x hx
      cases hx
  | cons y ys ih =>
      intro s x hx
      rcases List.mem_cons.mp hx with he | hm
      · subst he
        exact mem_foldl_insert_left ys _ x (List.mem_insert_self x s)
      · exact ih _ x hm

theorem walkLocs_mono (child : String → Option (List String)) (locs : List String) :
    ∀ (s S : List String), walkLocs child (some s) locs = some S →
      ∀ x ∈ s, x ∈ S := by
  induction locs with
  | nil =>
      intro s S h x hx
      cases h
      exact hx
  | cons loc rest ih =>
      intro s S h x hx
      rw [walkLocs_cons] at h
      cases hst : locStep child (some s) loc with
      | none =>
          rw [hst, walkLocs_bot] at h
          cases h
      | some s' =>
          rw [hst] at h
          have hsub : ∀ y ∈ s, y ∈ s' := by
            simp only [locStep] at hst
            by_cases hn : isSitemapNode loc = true
            · rw [if_pos hn] at hst
              cases hc : child loc with
              | none =>
                  simp only [hc] at hst
                  cases hst
              | some s2 =>
                  simp only [hc] at hst
                  cases hst
                  intro y hy
                  exact mem_foldl_insert_left s2 s y hy
            · rw [if_neg hn] at hst
              cases hst
              intro y hy
              exact List.mem_insert_iff.mpr (Or.inr hy)
          exact ih s' S h x (hsub x hx)

theorem walkLocs_leaf_mem (child : String → Option (List String)) (locs : List String) :
    ∀ (s S : List String) (loc : String), loc ∈ locs → isSitemapNode loc = false →
      walkLocs child (some s) locs = some S → loc ∈ S := by
  induction locs with
  | nil =>
      intro s S loc h
      cases h
  | cons l0 rest ih =>
      intro s S loc hmem hleaf h
      rw [walkLocs_cons] at h
      rcases List.mem_cons.mp hmem with he | hm
      · subst he
        have hst : locStep child (some s) loc = some (s.insert loc) := by
          simp only [locStep]
          rw [if_neg (by rw [hleaf]; exact Bool.false_ne_true)]
        rw [hst] at h
        exact walkLocs_mono child rest _ S h loc (List.mem_insert_self loc s)
      · cases hst : locStep child (some s) l0 with
        | none =>
            rw [hst, walkLocs_bot] at h
            cases h
        | some s' =>
            rw [hst] at h
            exact ih s' S loc hm hleaf h

theorem walkLocs_node_sub (child : String → Option (List String)) (locs : List String) :
    ∀ (s S : List String) (loc : String), loc ∈ locs → isSitemapNode loc = true →
      walkLocs child (some s) locs = some S →
      ∃ Sc, child loc = some Sc ∧ ∀ x ∈ Sc, x ∈ S := by
  induction locs with
  | nil =>
      intro s S loc h
      cases h
  | cons l0 rest ih =>
      intro s S loc hmem hnode h
      rw [walkLocs_cons] at h
      rcases List.mem_cons.mp hmem with he | hm
      · subst he
        cases hc : child loc with
        | none =>
            have hst : locStep child (some s) loc = none := by
              simp only [locStep]
              rw [if_pos hnode]
              simp only [hc]
            rw [hst, walkLocs_bot] at h
            cases h
        | some s2 =>
            have hst : locStep child (some s) loc =
                some (s2.foldl (fun t x => t.insert x) s) := by
              simp only [locStep]
              rw [if_pos hnode]
              simp only [hc]
            rw [hst] at h
            refine ⟨s2, rfl, ?_⟩
            intro x hx
            exact walkLocs_mono child rest _ S h x (mem_foldl_insert_right s2 s x hx)
      · cases hst : locStep child (some s) l0 with
        | none =>
            rw [hst, walkLocs_bot] at h
            cases h
        | some s' =>
            rw [hst] at h
            exact ih s' S loc hm hnode h

theorem walkLocs_failskip (child : String → Option (List String)) (bad : String)
    (hnode : isSitemapNode bad = true) (hchild : child bad = some [])
    (pre post : List String) (st : Option (List String)) :
    walkLocs child st (pre ++ bad :: post) = walkLocs child st (pre ++ post) := by
  unfold walkLocs
  rw [List.foldl_append, List.foldl_append, List.foldl_cons]
  congr 1
  cases hst : pre.foldl (locStep child) st with
  | none => rfl
  | some s =>
      simp only [locStep]
      rw [if_pos hnode]
      simp only [hchild, List.foldl_nil]

/-- C9: the recursive sitemap walk tolerates a failing document at any node:
a failing root contributes nothing beyond the accumulator and does not fail
the caller; a failing sitemap-like child inside a parent's `loc` list is
skipped exactly, leaving the walk over the remaining entries unchanged; every
non-sitemap `loc` of a successfully walked document ends up in the result;
and every sitemap-like `loc` is recursed into, with its URLs included in the
result. -/
theorem C9_sitemap_walk_fault_tolerance
    (world : String → Option (List String)) (fuel : Nat) (url bad : String)
    (pre post : List String) (acc : Option (List String)) :
    (world url = none → get_sitemap_urls world (fuel + 1) url acc = some (acc.getD [])) ∧
    (world url = some (pre ++ bad :: post) → isSitemapNode bad = true → world bad = none →
      get_sitemap_urls world (fuel + 2) url acc =
        walkLocs (fun loc => get_sitemap_urls world (fuel + 1) loc none)
          (some (acc.getD [])) (pre ++ post)) ∧
    (∀ locs S loc, world url = some locs →
      get_sitemap_urls world (fuel + 1) url acc = some S → loc ∈ locs →
      (isSitemapNode loc = false → loc ∈ S) ∧
      (isSitemapNode loc = true →
        ∃ Sc, get_sitemap_urls world fuel loc none = some Sc ∧ ∀ x ∈ Sc, x ∈ S)) := by
  refine ⟨?_, ?_, ?_⟩
  · intro h
    simp [get_sitemap_urls, h]
  · intro hurl hnode hbad
    have hchild : get_sitemap_urls world (fuel + 1) bad none = some [] := by
      simp [get_sitemap_urls, hbad]
    show (match world url with
      | none => some (acc.getD [])
      | some locs =>
          walkLocs (fun loc => get_sitemap_urls world (fuel + 1) loc none)
            (some (acc.getD [])) locs) = _
    rw [hurl]
    exact walkLocs_failskip _ bad hnode hchild pre post _
  · intro locs S loc hurl hwalk hmem
    have hw : walkLocs (fun l0 => get_sitemap_urls world fuel l0 none)
        (some (acc.getD [])) locs = some S := by
      have h0 : get_sitemap_urls world (fuel + 1) url acc =
          (match world url with
            | none => some (acc.getD [])
            | some locs =>
                walkLocs (fun l0 => get_sitemap_urls world fuel l0 none)
                  (some (acc.getD [])) locs) := rfl
      rw [h0, hurl] at hwalk
      exact hwalk
    constructor
    · intro hleaf
      exact walkLocs_leaf_mem _ locs _ S loc hmem hleaf hw
    · intro hnode
      exact walkLocs_node_sub _ locs _ S loc hmem hnode hw

def c9World : String → Option (List String) :=
  fun s => if s == "https://x.si/sitemap.xml" then
    some ["https://x.si/a", "https://x.si/bad.xml", "https://x.si/b"]
  else none

theorem C9_sitemap_walk_fault_tolerance_witness :
    c9World "https://x.si/bad.xml" = none ∧
    get_sitemap_urls c9World 3 "https://x.si/sitemap.xml" none =
      walkLocs (fun loc => get_sitemap_urls c9World 2 loc none) (some [])
        (["https://x.si/a"] ++ ["https://x.si/b"]) ∧
    "https://x.si/a" ∈ ["https://x.si/b", "https://x.si/a"] := by
  have h := C9_sitemap_walk_fault_tolerance c9World 1 "https://x.si/sitemap.xml"
    "https://x.si/bad.xml" ["https://x.si/a"] ["https://x.si/b"] none
  refine ⟨rfl, h.2.1 (by decide) (by decide) rfl, by decide⟩

theorem C10_domain_normalization_witness :
    removeWWW "www.gov.si" = removeWWW "gov.si" ∧
    (get_site (save_site ⟨[], [], [], 0, 7⟩ "www.gov.si" none none).2 "www.gov.si").map
        (fun r => r.1) = some 7 ∧
    save_site (save_site ⟨[], [], [], 0, 7⟩ "www.gov.si" none none).2 "gov.si" none none =
      (7, (save_site ⟨[], [], [], 0, 7⟩ "www.gov.si" none none).2) := by
  have h := C10_domain_normalization ⟨[], [], [], 0, 7⟩ "www.gov.si" "gov.si"
    none none none none (by decide)
  refine ⟨by decide, ?_, ?_⟩
  · have h1 := h.1
    rw [show (save_site ⟨[], [], [], 0, 7⟩ "www.gov.si" none none).1 = 7 from by decide] at h1
    exact h1
  · have h2 := h.2.1
    rw [show (save_site ⟨[], [], [], 0, 7⟩ "www.gov.si" none none).1 = 7 from by decide] at h2
    exact h2

/-- Crawl environment for a first-visit domain whose page body collides with
a stored page's hash while the robots file declares a sitemap. -/
def c3Env : CrawlEnv :=
  ⟨c6AllEnv, fun s => s, fun _ => "https", fun _ => "x.si", fun _ => some "1.2.3.4",
   "robots", some ["https://x.si/sm.xml"],
   fun s => if s == "https://x.si/sm.xml" then some ["https://x.si/new"] else none,
   2,
   fun _ => ⟨GotoResult.ok "https://x.si/dup" "BODY" 200, none, fun _ => "HTML",
     "https://x.si/dup"⟩,
   fun _ => "H1", fun _ => [], []⟩

def c3DB : DB :=
  ⟨[⟨1, "https://x.si/orig/", PageState.HTML, some 1, some "X", some "H1", some 200⟩,
    ⟨2, "https://x.si/dup/", PageState.CRAWLING, none, none, none, none⟩],
   [], [], 3, 1⟩

def c3DB0 : DB :=
  ⟨[⟨1, "https://x.si/orig/", PageState.HTML, some 1, some "X", some "H1", some 200⟩,
    ⟨2, "https://x.si/dup/", PageState.CRAWLING, none, none, none, none⟩],
   [⟨1, "x.si", some "robots", some "https://x.si/sm.xml"⟩], [], 3, 2⟩

/-- C3 counterexample: a duplicate-content page fetched on a first-visit
domain is marked `DUPLICATE`, yet it does produce an outbound link edge into
the frontier: the sitemap-derived URL is enqueued and its new `FRONTIER` page
(id 3, different from the original page 1) is linked from the duplicate page
(id 2), because the final link loop of `crawl_url` runs regardless of the
duplicate branch. -/
theorem C3_duplicate_counterexample :
    (crawl_url c3Env c3DB 2 "https://x.si/dup/").stateOf 2 = some PageState.DUPLICATE ∧
    (⟨2, 3⟩ : LinkRow) ∈ (crawl_url c3Env c3DB 2 "https://x.si/dup/").links ∧
    (crawl_url c3Env c3DB 2 "https://x.si/dup/").stateOf 3 = some PageState.FRONTIER ∧
    (3 : Nat) ≠ 1 := by decide

/-- C3 (amended): on a hash collision the current page is marked `DUPLICATE`,
exactly one link edge is created from the current page to the original (and
none from the original to the current), the original page's row is left
untouched, and the current page is not parsed for links — every page row of
the final state is either an already-present row or a sitemap-derived
frontier entry (sitemap-derived URLs collected for a first-visit domain are
still enqueued and linked from the duplicate page). -/
theorem C3_duplicate_handling_amended
    (env : CrawlEnv) (db : DB) (page_id : Nat) (start_url : String)
    (ip : String) (sid : Nat) (sm : List String) (db0 : DB) (r : FetchOk)
    (html : String) (opid : Nat) (osid : Option Nat) (cur orig : PageRow)
    (hip : env.ipOf (env.netlocOf (env.fixShort start_url)) = some ip)
    (hsite : site_step env db (env.fixShort start_url) = (sid, sm, db0))
    (hfetch : get_page (env.pageEnvOf (env.fixShort start_url)) = Except.ok (some r))
    (hhtml : r.html = some html)
    (hnored : canonicalizeStr r.url = env.fixShort start_url)
    (hcol : check_pages_hash_collision db0 (env.hashOf html) = some (opid, osid))
    (hcur : db0.getPage page_id = some cur)
    (horig : db0.getPage opid = some orig)
    (hne : opid ≠ page_id)
    (hwf : DB.WF db0)
    (hnoedge : (⟨page_id, opid⟩ : LinkRow) ∉ db0.links)
    (hnorev : (⟨opid, page_id⟩ : LinkRow) ∉ db0.links) :
    (crawl_url env db page_id start_url).stateOf page_id = some PageState.DUPLICATE ∧
    edgeCount (crawl_url env db page_id start_url) page_id opid = 1 ∧
    (⟨opid, page_id⟩ : LinkRow) ∉ (crawl_url env db page_id start_url).links ∧
    (crawl_url env db page_id start_url).getPage opid = some orig ∧
    (∀ p ∈ (crawl_url env db page_id start_url).pages,
      p.url ∈ sm ∨ ∃ q ∈ db0.pages, q.id = p.id) := by
  have hfinal : crawl_url env db page_id start_url =
      push_links
        (add_page_link (update_page db0 page_id r.status osid none none PageState.DUPLICATE)
          opid page_id)
        page_id ((([] : List String) ++ sm).dedup) := by
    rw [crawl_url_ok_eq env db page_id start_url ip sid sm db0 r hip hsite hfetch, hnored,
      redirect_step_id]
    simp only [after_redirect, hhtml]
    rw [html_step_duplicate env db0 page_id (env.fixShort start_url) html r.status sid
      opid osid hcol]
  have hup : (update_page db0 page_id r.status osid none none PageState.DUPLICATE).getPage
      page_id = some { cur with
        page_type_code := PageState.DUPLICATE, html_content := none,
        http_status_code := some r.status, site_id := osid,
        html_content_hash := none } :=
    getPage_update_page_self db0 page_id r.status osid none none PageState.DUPLICATE cur hcur
  have hup2 : (add_page_link (update_page db0 page_id r.status osid none none
      PageState.DUPLICATE) opid page_id).getPage page_id = some { cur with
        page_type_code := PageState.DUPLICATE, html_content := none,
        http_status_code := some r.status, site_id := osid,
        html_content_hash := none } := by
    rw [getPage_add_page_link]
    exact hup
  have horigmem : orig ∈ db0.pages := List.mem_of_find?_eq_some horig
  have horigid : orig.id = opid := by
    have := List.find?_some horig
    simpa using this
  have hlt : opid < db0.nextPageId := horigid ▸ hwf.1 orig horigmem
  refine ⟨?_, ?_, ?_, ?_, ?_⟩
  · rw [hfinal]
    unfold DB.stateOf
    rw [getPage_push_links _ page_id _ page_id _ hup2]
    rfl
  · rw [hfinal]
    have hnoedge1 : (⟨page_id, opid⟩ : LinkRow) ∉ (update_page db0 page_id r.status osid
        none none PageState.DUPLICATE).links := by
      rw [links_update_page]
      exact hnoedge
    have e1 : edgeCount (add_page_link (update_page db0 page_id r.status osid none none
        PageState.DUPLICATE) opid page_id) page_id opid = 1 := by
      rw [edgeCount_add_page_link_self _ page_id opid hnoedge1,
        edgeCount_zero_of_not_mem _ page_id opid hnoedge1]
    rw [edgeCount_push_links _ page_id _ page_id opid (by
      rw [nextPageId_add_page_link]
      exact hlt)]
    exact e1
  · rw [hfinal]
    intro hmem
    rcases mem_links_push_links _ page_id _ _ hmem with h' | h'
    · rcases mem_links_add_page_link _ opid page_id _ h' with h'' | h''
      · rw [links_update_page] at h''
        exact hnorev h''
      · have : opid = page_id := congrArg LinkRow.from_page h''
        exact hne this
    · exact hne h'
  · rw [hfinal]
    apply getPage_push_links
    rw [getPage_add_page_link, getPage_update_page_other db0 page_id r.status osid none
      none PageState.DUPLICATE opid hne]
    exact horig
  · rw [hfinal]
    intro p hp
    rcases mem_pages_push_links _ page_id _ p hp with h' | h'
    · rw [pages_add_page_link] at h'
      exact Or.inr (mem_pages_update_page db0 page_id r.status osid none none
        PageState.DUPLICATE p h')
    · left
      have := List.mem_dedup.mp h'
      simpa using this

theorem C3_duplicate_handling_amended_witness :
    site_step c3Env c3DB (c3Env.fixShort "https://x.si/dup/") =
      (1, ["https://x.si/new/"], c3DB0) ∧
    (crawl_url c3Env c3DB 2 "https://x.si/dup/").getPage 1 =
      some ⟨1, "https://x.si/orig/", PageState.HTML, some 1, some "X", some "H1", some 200⟩ ∧
    edgeCount (crawl_url c3Env c3DB 2 "https://x.si/dup/") 2 1 = 1 := by
  have h := C3_duplicate_handling_amended c3Env c3DB 2 "https://x.si/dup/" "1.2.3.4" 1
    ["https://x.si/new/"] c3DB0 ⟨"https://x.si/dup", some "BODY", none, 200⟩ "BODY" 1 (some 1)
    ⟨2, "https://x.si/dup/", PageState.CRAWLING, none, none, none, none⟩
    ⟨1, "https://x.si/orig/", PageState.HTML, some 1, some "X", some "H1", some 200⟩
    rfl (by decide) rfl rfl (by decide) (by decide) (by decide) (by decide) (by decide)
    ⟨by decide, by decide, by decide⟩ (by decide) (by decide)
  exact ⟨by decide, h.2.2.2.1, h.2.1⟩

/-- Crawl environment producing a redirect onto a URL whose page row already
exists. -/
def c4Env : CrawlEnv :=
  ⟨c6AllEnv, fun s => s, fun _ => "https", fun _ => "a.si", fun _ => some "1.2.3.4",
   "robots", none, fun _ => none, 1,
   fun _ => ⟨GotoResult.ok "https://a.si/land" "B" 200, none, fun _ => "HTML",
     "https://a.si/land"⟩,
   fun _ => "H2", fun _ => [], []⟩

def c4DB : DB :=
  ⟨[⟨1, "https://a.si/old/", PageState.CRAWLING, none, none, none, none⟩,
    ⟨2, "https://a.si/land/", PageState.HTML, some 1, some "X", some "HX", some 200⟩],
   [⟨1, "a.si", none, none⟩], [], 3, 2⟩

/-- C4 counterexample: a redirect whose landing URL already has a page row
creates no new page row at all — `create_new_page` falls back to the existing
row — so the redirect converts the original page and links it to the existing
landing page while the page count stays unchanged, refuting "creates exactly
one new page row for the landing URL". -/
theorem C4_redirect_counterexample :
    (crawl_url c4Env c4DB 1 "https://a.si/old/").stateOf 1 = some PageState.REDIRECT ∧
    (⟨1, 2⟩ : LinkRow) ∈ (crawl_url c4Env c4DB 1 "https://a.si/old/").links ∧
    (crawl_url c4Env c4DB 1 "https://a.si/old/").pages.length = c4DB.pages.length := by
  decide

/-- C4 (amended): when the fetch resolves to a canonical URL different from
the requested one and no page row for the landing URL exists yet, the crawl
step converts the original page to `REDIRECT`, ensures exactly one page row
for the landing URL (creating it with the next page id), adds one link edge
from the original page to the new page, and runs all subsequent persistence
of the step under the new page's id; when a row for the landing URL already
exists, that row is reused and no new row is created. -/
theorem C4_redirect_handling_amended
    (env : CrawlEnv) (db : DB) (page_id : Nat) (start_url : String)
    (ip : String) (sid : Nat) (sm : List String) (db0 : DB) (r : FetchOk)
    (cur : PageRow)
    (hip : env.ipOf (env.netlocOf (env.fixShort start_url)) = some ip)
    (hsite : site_step env db (env.fixShort start_url) = (sid, sm, db0))
    (hfetch : get_page (env.pageEnvOf (env.fixShort start_url)) = Except.ok (some r))
    (hne : env.fixShort start_url ≠ canonicalizeStr r.url)
    (hfresh : ∀ p ∈ db0.pages, p.url ≠ canonicalizeStr r.url)
    (hcur : db0.getPage page_id = some cur)
    (hwf : DB.WF db0) :
    (crawl_url env db page_id start_url).stateOf page_id = some PageState.REDIRECT ∧
    urlCount db0 (canonicalizeStr r.url) = 0 ∧
    urlCount (crawl_url env db page_id start_url) (canonicalizeStr r.url) = 1 ∧
    (⟨page_id, db0.nextPageId⟩ : LinkRow) ∈ (crawl_url env db page_id start_url).links ∧
    (redirect_step db0 page_id (env.fixShort start_url) (canonicalizeStr r.url) sid).1 =
      db0.nextPageId ∧
    crawl_url env db page_id start_url =
      after_redirect env
        (redirect_step db0 page_id (env.fixShort start_url) (canonicalizeStr r.url) sid).2
        db0.nextPageId (env.fixShort start_url) sid sm r := by
  obtain ⟨hfst, hnext, hedge, hcount, hget⟩ :=
    redirect_step_fresh_parts db0 page_id (env.fixShort start_url) (canonicalizeStr r.url)
      sid hne hfresh
  have heq : crawl_url env db page_id start_url =
      after_redirect env
        (redirect_step db0 page_id (env.fixShort start_url) (canonicalizeStr r.url) sid).2
        db0.nextPageId (env.fixShort start_url) sid sm r := by
    rw [crawl_url_ok_eq env db page_id start_url ip sid sm db0 r hip hsite hfetch, hfst]
  have hcount0 : urlCount db0 (canonicalizeStr r.url) = 0 := by
    unfold urlCount
    rw [List.countP_eq_zero]
    intro p hp
    simp [hfresh p hp]
  have hcurmem : cur ∈ db0.pages := List.mem_of_find?_eq_some hcur
  have hcurid : cur.id = page_id := by
    have := List.find?_some hcur
    simpa using this
  have hpidlt : page_id < db0.nextPageId := hcurid ▸ hwf.1 cur hcurmem
  have hpidne : page_id ≠ db0.nextPageId := Nat.ne_of_lt hpidlt
  refine ⟨?_, hcount0, ?_, ?_, hfst, heq⟩
  · rw [heq]
    unfold DB.stateOf
    rw [getPage_after_redirect_other env _ db0.nextPageId (env.fixShort start_url) sid sm r
      page_id _ hpidne (hget cur hcur)]
    rfl
  · rw [heq]
    rw [urlCount_after_redirect env _ db0.nextPageId (env.fixShort start_url) sid sm r
      (canonicalizeStr r.url) (by
        rw [hcount, hcount0]
        exact Nat.zero_lt_one)]
    rw [hcount, hcount0]
  · rw [heq]
    exact links_after_redirect env _ db0.nextPageId (env.fixShort start_url) sid sm r
      _ hedge

def c4bDB : DB :=
  ⟨[⟨1, "https://a.si/old/", PageState.CRAWLING, none, none, none, none⟩],
   [⟨1, "a.si", none, none⟩], [], 2, 2⟩

theorem C4_redirect_handling_amended_witness :
    urlCount c4bDB "https://a.si/land/" = 0 ∧
    (crawl_url c4Env c4bDB 1 "https://a.si/old/").stateOf 1 = some PageState.REDIRECT ∧
    urlCount (crawl_url c4Env c4bDB 1 "https://a.si/old/") "https://a.si/land/" = 1 ∧
    (⟨1, 2⟩ : LinkRow) ∈ (crawl_url c4Env c4bDB 1 "https://a.si/old/").links := by
  have h := C4_redirect_handling_amended c4Env c4bDB 1 "https://a.si/old/" "1.2.3.4" 1
    [] c4bDB ⟨"https://a.si/land", some "B", none, 200⟩
    ⟨1, "https://a.si/old/", PageState.CRAWLING, none, none, none, none⟩
    rfl (by decide) rfl (by decide) (by decide) (by decide) ⟨by decide, by decide, by decide⟩
  exact ⟨h.2.1, h.1, h.2.2.1, h.2.2.2.1⟩

/-- C8: a fetch that raises (or falls through to the `None` unpacking error,
which covers the failed binary-download fallback after an aborted load)
leaves the popped page in state `FAILED`; the whole crawl step then reduces
to marking the page failed and pushing only the sitemap-derived URLs, so no
links are extracted from the page's content; a finished spider loop always
ends with an empty frontier pop; and after any popped page the loop simply
continues on the crawled state, so a page failure is never fatal. -/
theorem C8_failure_and_termination
    (env : CrawlEnv) (db : DB) (page_id : Nat) (start_url : String)
    (ip : String) (sid : Nat) (sm : List String) (db0 : DB) (cur : PageRow)
    (hip : env.ipOf (env.netlocOf (env.fixShort start_url)) = some ip)
    (hsite : site_step env db (env.fixShort start_url) = (sid, sm, db0))
    (hfail : get_page (env.pageEnvOf (env.fixShort start_url)) = Except.ok none ∨
             get_page (env.pageEnvOf (env.fixShort start_url)) = Except.error ())
    (hcur : db0.getPage page_id = some cur) :
    (crawl_url env db page_id start_url).stateOf page_id = some PageState.FAILED ∧
    crawl_url env db page_id start_url =
      push_links (mark_page_as_failed db0 page_id (some sid)) page_id sm ∧
    (∀ p ∈ (crawl_url env db page_id start_url).pages,
      p.url ∈ sm ∨ ∃ q ∈ db0.pages, q.id = p.id) ∧
    (∀ (fuel : Nat) (d d' : DB), start_spider env fuel d = some d' →
      (pop_frontier d').1 = none) ∧
    (∀ (n : Nat) (d d1 : DB) (fid : Nat) (url : String),
      pop_frontier d = (some (fid, url), d1) →
      start_spider env (n + 1) d = start_spider env n (crawl_url env d1 fid url)) := by
  have heq := crawl_url_fail_eq env db page_id start_url ip sid sm db0 hip hsite hfail
  refine ⟨?_, heq, ?_, start_spider_terminates env, ?_⟩
  · rw [heq]
    unfold DB.stateOf
    rw [getPage_push_links _ page_id _ page_id _
      (getPage_mark_failed_self db0 page_id sid cur hcur)]
    rfl
  · rw [heq]
    intro p hp
    rcases mem_pages_push_links _ page_id _ p hp with h' | h'
    · exact Or.inr (mem_pages_mark_failed db0 page_id (some sid) p h')
    · exact Or.inl h'
  · intro n d d1 fid url hpop
    simp only [start_spider, hpop]

def c8Env : CrawlEnv :=
  ⟨c6AllEnv, fun s => s, fun _ => "https", fun _ => "f.si", fun _ => some "1.2.3.4",
   "robots", none, fun _ => none, 1,
   fun _ => ⟨GotoResult.errOtherShape, none, fun _ => "HTML", "x"⟩,
   fun _ => "H", fun _ => [], []⟩

def c8DB : DB :=
  ⟨[⟨1, "https://f.si/a/", PageState.CRAWLING, none, none, none, none⟩],
   [⟨1, "f.si", none, none⟩], [], 2, 2⟩

theorem C8_failure_and_termination_witness :
    (crawl_url c8Env c8DB 1 "https://f.si/a/").stateOf 1 = some PageState.FAILED ∧
    start_spider c8Env 1 ⟨[], [], [], 0, 0⟩ = some ⟨[], [], [], 0, 0⟩ ∧
    (pop_frontier (⟨[], [], [], 0, 0⟩ : DB)).1 = none := by
  have h := C8_failure_and_termination c8Env c8DB 1 "https://f.si/a/" "1.2.3.4" 1 []
    c8DB ⟨1, "https://f.si/a/", PageState.CRAWLING, none, none, none, none⟩
    rfl (by decide) (Or.inr rfl) (by decide)
  refine ⟨h.1, by decide, ?_⟩
  exact h.2.2.2.1 1 ⟨[], [], [], 0, 0⟩ ⟨[], [], [], 0, 0⟩ (by decide)

end Crawler
